import Mathlib

/-!
Verification of the static extraction engine of the design-system metadata
server (`props-parser.ts`, `slot-parser.ts`, `composable-parser.ts`,
`utils.ts`, and the `get_tokens` request handler of `index.ts`).

The TypeScript sources are shallowly embedded: the ts-morph AST fragments the
parsers inspect become a small inductive type, strings become `List Char`
where character-level scanning matters, and each JavaScript regular
expression used by the code is embedded as an explicit leftmost-match scanner
whose backtracking behaviour has been worked out by hand from the pattern.
JavaScript `\s` is modelled by the ASCII whitespace characters and `\w` by
`[A-Za-z0-9_]`.
-/

/-- JavaScript word character class `\w` = `[A-Za-z0-9_]`. -/
def isWordChar (c : Char) : Bool :=
  (('a' ≤ c ∧ c ≤ 'z') ∨ ('A' ≤ c ∧ c ≤ 'Z') ∨ ('0' ≤ c ∧ c ≤ '9') ∨ c = '_')

/-- JavaScript whitespace class `\s`, restricted to its ASCII members. -/
def isJsSpace (c : Char) : Bool :=
  (c = ' ' ∨ c = '\t' ∨ c = '\n' ∨ c = '\r' ∨ c = '\x0b' ∨ c = '\x0c')

/-- Leftmost-match driver: try the position matcher `f` at every suffix,
left to right, as a JavaScript regex engine does. -/
def scanFirst (f : List Char → Option α) : List Char → Option α
  | [] => f []
  | c :: rest => (f (c :: rest)).orElse fun _ => scanFirst f rest

/-- `text.replace(/['"]/g, '')`. -/
def stripQuotes (l : List Char) : List Char :=
  l.filter fun c => c ≠ '\'' ∧ c ≠ '"'

/-- JavaScript `String.prototype.trim`, on the ASCII whitespace characters. -/
def trimChars (l : List Char) : List Char :=
  ((l.dropWhile isJsSpace).reverse.dropWhile isJsSpace).reverse

/-- JavaScript `String.prototype.endsWith`, via character lists. -/
def endsWithStr (s suffix : String) : Bool :=
  suffix.data.isSuffixOf s.data

/-- Contiguous substring test on character lists. -/
def containsSub (sub : List Char) : List Char → Bool
  | [] => sub.isPrefixOf []
  | c :: rest => sub.isPrefixOf (c :: rest) || containsSub sub rest

/-- JavaScript `a.includes(b)` for strings: contiguous substring test. -/
def containsStr (s sub : String) : Bool :=
  containsSub sub.data s.data

/-- Position matcher for `/PropType<([^>]+)>/`: at this suffix, the literal
`PropType<`, then a non-empty run of non-`>` characters (the capture), then
`>`. -/
def matchPropTypeAt (s : List Char) : Option (List Char) :=
  if ("PropType<".data).isPrefixOf s then
    let rest := s.drop 9
    let cap := rest.takeWhile fun c => c ≠ '>'
    if cap ≠ [] ∧ cap.length < rest.length then some cap else none
  else none

/-- Position matcher for `/typeof\s+(\w+)/`: the literal `typeof`, at least
one whitespace character, then a non-empty word run (the capture). -/
def matchTypeofAt (s : List Char) : Option (List Char) :=
  if ("typeof".data).isPrefixOf s then
    let rest := s.drop 6
    let ws := rest.takeWhile isJsSpace
    let word := (rest.drop ws.length).takeWhile isWordChar
    if ws ≠ [] ∧ word ≠ [] then some word else none
  else none

/-- Position matcher for `/(\w+)\.includes/`: a maximal non-empty word run
immediately followed by the literal `.includes`.  (Backtracking the greedy
`\w+` cannot help: a shorter run is followed by a word character, never by
`.`.) -/
def matchIncludesAt (s : List Char) : Option (List Char) :=
  let word := s.takeWhile isWordChar
  if word ≠ [] ∧ (".includes".data).isPrefixOf (s.drop word.length) then
    some word
  else none

/-- Backtracking helper for the `\s+` of `/@description\s+([^\n*]+)/`: the
greedy whitespace run gives characters back until the capture can start with
a character that is neither `\n` nor `*`.  Returns the chosen run length
(searching downward from the maximal run), or `none`. -/
def descCapStart (rest : List Char) : Nat → Option Nat
  | 0 => none
  | k + 1 =>
    match rest.drop (k + 1) with
    | c :: _ => if c ≠ '\n' ∧ c ≠ '*' then some (k + 1) else descCapStart rest k
    | [] => descCapStart rest k

/-- Position matcher for `/@description\s+([^\n*]+)/`. -/
def matchDescriptionAt (s : List Char) : Option (List Char) :=
  if ("@description".data).isPrefixOf s then
    let rest := s.drop 12
    let wsLen := (rest.takeWhile isJsSpace).length
    match descCapStart rest wsLen with
    | some k => some ((rest.drop k).takeWhile fun c => c ≠ '\n' ∧ c ≠ '*')
    | none => none
  else none

/-- Position matcher for `/\(\s*\w+\s*:\s*([^),]+)/`, the parameter-type
pattern used on emit handler texts. -/
def matchEmitParamAt (s : List Char) : Option (List Char) :=
  match s with
  | '(' :: rest =>
    let afterWs1 := rest.dropWhile isJsSpace
    let word := afterWs1.takeWhile isWordChar
    let afterWs2 := (afterWs1.drop word.length).dropWhile isJsSpace
    match afterWs2 with
    | ':' :: r2 =>
      let cap := (r2.dropWhile isJsSpace).takeWhile fun c => c ≠ ')' ∧ c ≠ ','
      if word ≠ [] ∧ cap ≠ [] then some cap else none
    | _ => none
  | _ => none

/-!
## The ts-morph AST fragment inspected by `props-parser.ts`

`parseComponentProps` only ever looks at: variable declarations (name and
initializer), object-literal initializers and their property assignments
(name, leading comment ranges, initializer), `as`-expressions over array
literals of string literals, and the raw text of any other initializer.
Every node carries its `getText()` result.
-/

mutual
inductive TsNode where
  | asExpr (text : String) (inner : TsNode)
  | arrayLit (text : String) (elems : List TsNode)
  | stringLit (text : String)
  | objectLit (text : String) (members : List TsMember)
  | otherExpr (text : String)

inductive TsMember where
  | assignment (name : String) (comments : List String) (init : Option TsNode)
  | otherMember (name : String)
end

/-- `getText()` of an expression node. -/
def TsNode.getText : TsNode → String
  | .asExpr t _ => t
  | .arrayLit t _ => t
  | .stringLit t => t
  | .objectLit t _ => t
  | .otherExpr t => t

/-- `getName()` of an object-literal member. -/
def TsMember.name : TsMember → String
  | .assignment n _ _ => n
  | .otherMember n => n

/-- `Node.isPropertyAssignment`. -/
def TsMember.isPropertyAssignment : TsMember → Bool
  | .assignment _ _ _ => true
  | .otherMember _ => false

/-- `getInitializer()` of a member (`none` for non-assignment members). -/
def TsMember.getInitializer : TsMember → Option TsNode
  | .assignment _ _ i => i
  | .otherMember _ => none

/-- `obj.getProperty(name)`: first member with the given name. -/
def getProperty (members : List TsMember) (n : String) : Option TsMember :=
  members.find? fun m => m.name = n

structure VariableDeclaration where
  name : String
  initializer : Option TsNode

structure SourceFile where
  decls : List VariableDeclaration

structure PropDefinition where
  name : String
  type : String
  default : Option String := none
  description : Option String := none
  validValues : Option (List String) := none
  required : Option Bool := none
  validator : Option String := none
deriving DecidableEq, Repr

structure EmitDefinition where
  name : String
  payloadType : Option String := none
deriving DecidableEq, Repr

structure ComponentProps where
  props : List PropDefinition
  emits : List EmitDefinition
deriving DecidableEq, Repr

/-- The `simpleTypes` table of `resolveType` (note: only the first three map
to lowercase tags; `Array`, `Object`, `Function` map to themselves). -/
def simpleTypes : List (String × String) :=
  [("String", "string"), ("Boolean", "boolean"), ("Number", "number"),
   ("Array", "Array"), ("Object", "Object"), ("Function", "Function")]

/-- `resolveType` of `props-parser.ts`. -/
def resolveType (propBody : List TsMember) : String :=
  match getProperty propBody "type" with
  | none => "unknown"
  | some m =>
    if m.isPropertyAssignment then
      match m.getInitializer with
      | none => "unknown"
      | some init =>
        let text := init.getText
        match scanFirst matchPropTypeAt text.data with
        | some cap => String.mk cap
        | none =>
          match simpleTypes.find? fun p => p.1 = text with
          | some p => p.2
          | none => text
    else "unknown"

/-- `resolveDefault`. -/
def resolveDefault (propBody : List TsMember) : Option String :=
  match getProperty propBody "default" with
  | none => none
  | some m =>
    if m.isPropertyAssignment then
      match m.getInitializer with
      | none => none
      | some init => some init.getText
    else none

/-- `resolveValidator`. -/
def resolveValidator (propBody : List TsMember) : Option String :=
  match getProperty propBody "validator" with
  | none => none
  | some m =>
    if m.isPropertyAssignment then
      match m.getInitializer with
      | none => none
      | some init => some init.getText
    else none

/-- `resolveRequired`. -/
def resolveRequired (propBody : List TsMember) : Option Bool :=
  match getProperty propBody "required" with
  | none => none
  | some m =>
    if m.isPropertyAssignment then
      match m.getInitializer with
      | none => none
      | some init => some (init.getText = "true")
    else none

/-- `replace(/,\s*$/, '')` applied after `trim()`: on an already trimmed
string the pattern can only match a single trailing comma. -/
def stripTrailingComma (s : String) : String :=
  if endsWithStr s "," then String.mk s.data.dropLast else s

/-- `getJsDocDescription`: first leading comment matching the
`@description` pattern, trimmed, with a trailing comma removed. -/
def getJsDocDescription (comments : List String) : Option String :=
  match comments with
  | [] => none
  | doc :: rest =>
    match scanFirst matchDescriptionAt doc.data with
    | some cap => some (stripTrailingComma (String.mk (trimChars cap)))
    | none => getJsDocDescription rest

/-- JavaScript record assignment `result[name] = values` (overwrite if the
key is already present, append otherwise; lookup is by key). -/
def recordSet (m : List (String × List String)) (k : String)
    (v : List String) : List (String × List String) :=
  if m.any fun p => p.1 = k then
    m.map fun p => if p.1 = k then (k, v) else p
  else m ++ [(k, v)]

/-- Record lookup `m[k]`. -/
def recordGet (m : List (String × List String)) (k : String) :
    Option (List String) :=
  (m.find? fun p => p.1 = k).map fun p => p.2

/-- `extractConstArrays`: record every variable declaration whose
initializer is an `as`-expression over an array literal, keeping the quote-
stripped texts of its string-literal elements (skipped when empty). -/
def extractConstArrays (sf : SourceFile) : List (String × List String) :=
  sf.decls.foldl
    (fun result decl =>
      match decl.initializer with
      | some (TsNode.asExpr _ (TsNode.arrayLit _ elems)) =>
        let values := elems.filterMap fun e =>
          match e with
          | TsNode.stringLit t => some (String.mk (stripQuotes t.data))
          | _ => none
        if values ≠ [] then recordSet result decl.name values else result
      | _ => result)
    []

/-- Source line 179–180: attach the `@description` doc-comment text when
present and truthy. -/
def withDescription (comments : List String) (pd : PropDefinition) :
    PropDefinition :=
  match getJsDocDescription comments with
  | some d => if d ≠ "" then { pd with description := some d } else pd
  | none => pd

/-- Source lines 182–183: attach the raw `default` text when present. -/
def withDefault (propBody : List TsMember) (pd : PropDefinition) :
    PropDefinition :=
  match resolveDefault propBody with
  | some d => { pd with default := some d }
  | none => pd

/-- Source lines 185–186: attach the parsed `required` flag when present. -/
def withRequired (propBody : List TsMember) (pd : PropDefinition) :
    PropDefinition :=
  match resolveRequired propBody with
  | some r => { pd with required := some r }
  | none => pd

/-- Source lines 188–189: attach the raw validator text when truthy. -/
def withValidator (validator : Option String) (pd : PropDefinition) :
    PropDefinition :=
  match validator with
  | some v => if v ≠ "" then { pd with validator := some v } else pd
  | none => pd

/-- Source lines 191–201: the `typeof <Const>` valid-values path, which also
coerces a lingering `typeof` type text to `string`. -/
def withValidValuesFromType (constArrays : List (String × List String))
    (typeText : String) (pd : PropDefinition) : PropDefinition :=
  match scanFirst matchTypeofAt typeText.data with
  | some arrName =>
    match recordGet constArrays (String.mk arrName) with
    | some vs =>
      let pd' := { pd with validValues := some vs }
      if containsStr pd'.type "typeof" then { pd' with type := "string" }
      else pd'
    | none => pd
  | none => pd

/-- Source lines 203–209: the `<Const>.includes` valid-values path (never
touches `type`). -/
def withValidValuesFromValidator (constArrays : List (String × List String))
    (validator : Option String) (pd : PropDefinition) : PropDefinition :=
  match validator with
  | some v =>
    if v ≠ "" then
      match scanFirst matchIncludesAt v.data with
      | some arrName =>
        match recordGet constArrays (String.mk arrName) with
        | some vs => { pd with validValues := some vs }
        | none => pd
      | none => pd
    else pd
  | none => pd

/-- The raw text of the `type` field re-read for the valid-values check
(source lines 192–194). -/
def typeFieldText (propBody : List TsMember) : String :=
  match getProperty propBody "type" with
  | some tp =>
    match tp.getInitializer with
    | some i => i.getText
    | none => ""
  | none => ""

/-- The per-property body of the `*PropTypes` loop of
`parseComponentProps` (source lines 164–212), assembled from the step
functions above in source order. -/
def parsePropMember (constArrays : List (String × List String))
    (m : TsMember) : Option PropDefinition :=
  match m with
  | .otherMember _ => none
  | .assignment propName comments init =>
    match init with
    | some (TsNode.objectLit _ propBody) =>
      some (withValidValuesFromValidator constArrays (resolveValidator propBody)
        (withValidValuesFromType constArrays (typeFieldText propBody)
          (withValidator (resolveValidator propBody)
            (withRequired propBody
              (withDefault propBody
                (withDescription comments
                  { name := propName, type := resolveType propBody }))))))
    | _ => none

/-- The per-entry body of the `*EmitTypes` loop (source lines 224–241). -/
def parseEmitMember (m : TsMember) : Option EmitDefinition :=
  match m with
  | .otherMember _ => none
  | .assignment name _ init =>
    let emitName := String.mk (stripQuotes name.data)
    let payloadType := match init with
      | none => none
      | some e =>
        (scanFirst matchEmitParamAt e.getText.data).map fun cap =>
          String.mk (trimChars cap)
    some { name := emitName, payloadType := payloadType }

/-- One iteration of the `*PropTypes` declaration loop. -/
def propTypesStep (constArrays : List (String × List String))
    (acc : List PropDefinition) (decl : VariableDeclaration) :
    List PropDefinition :=
  if endsWithStr decl.name "PropTypes" then
    match decl.initializer with
    | some (TsNode.objectLit _ members) =>
      acc ++ members.filterMap (parsePropMember constArrays)
    | _ => acc
  else acc

/-- One iteration of the `*EmitTypes` declaration loop. -/
def emitTypesStep (acc : List EmitDefinition) (decl : VariableDeclaration) :
    List EmitDefinition :=
  if endsWithStr decl.name "EmitTypes" ∨ endsWithStr decl.name "emitTypes" then
    match decl.initializer with
    | some (TsNode.objectLit _ members) =>
      acc ++ members.filterMap parseEmitMember
    | _ => acc
  else acc

/-- `parseComponentProps` of `props-parser.ts`, over the AST of an already
parsed definition file. -/
def parseComponentProps (sf : SourceFile) : ComponentProps :=
  let constArrays := extractConstArrays sf
  { props := sf.decls.foldl (propTypesStep constArrays) []
    emits := sf.decls.foldl emitTypesStep [] }

/-!
## Slot extraction

Two implementations exist in the repository: `slot-parser.ts` walks the
template AST produced by an external SFC parser, and the `parseSlots` found
alongside `props-parser.ts` performs a linear text scan with manual quote
tracking.  Both are embedded below.
-/

structure SlotDefinition where
  name : String
  isScoped : Bool
  scopeProps : Option (List String) := none
deriving DecidableEq, Repr

/-- A template AST attribute record as `slot-parser.ts` sees it: `type` 6 is
a static attribute (with `value.content`), `type` 7 a directive (with
`arg.content` and `exp.content`).  An absent nested object is `none`; a
present object with content `s` is `some s` (presence, not emptiness, is
what the JavaScript truthiness tests observe, except where noted). -/
structure TemplateProp where
  type : Nat
  name : String
  value : Option String := none
  arg : Option String := none
  exp : Option String := none
deriving DecidableEq, Repr

mutual
inductive TemplateNode where
  | node (tag : Option String) (props : List TemplateProp) (children : TemplateNodeList)

inductive TemplateNodeList where
  | nil
  | cons (head : TemplateNode) (tail : TemplateNodeList)
end

/-- Slot-name resolution of `findSlots` (`slot-parser.ts` lines 30–38):
static `name` attribute first, then a dynamically bound `name`, else
`"default"`. -/
def resolveAstSlotName (props : List TemplateProp) : String :=
  let staticName := props.find? fun p => p.type = 6 ∧ p.name = "name"
  let dynamicName := props.find? fun p =>
    p.type = 7 ∧ p.name = "bind" ∧ p.arg = some "name"
  match staticName with
  | some sn =>
    match sn.value with
    | some v => v
    | none =>
      match dynamicName with
      | some dn =>
        match dn.exp with
        | some e => "[" ++ e ++ "]"
        | none => "default"
      | none => "default"
  | none =>
    match dynamicName with
    | some dn =>
      match dn.exp with
      | some e => "[" ++ e ++ "]"
      | none => "default"
    | none => "default"

/-- The scoped-prop filter of `findSlots` (line 45): `v-bind` directives
whose argument is present, non-empty (JavaScript truthiness of
`p.arg?.content`), and neither `name` nor `class`. -/
def isScopeBind (p : TemplateProp) : Bool :=
  (p.type = 7 : Bool) && (p.name = "bind" : Bool) &&
    (match p.arg with
     | some a => (a ≠ "" ∧ a ≠ "name" ∧ a ≠ "class" : Bool)
     | none => false)

/-- The slot record built for one AST `<slot>` node. -/
def astSlotOfProps (props : List TemplateProp) : SlotDefinition :=
  let name := resolveAstSlotName props
  let scopeProps := (props.filter isScopeBind).filterMap fun p => p.arg
  if scopeProps ≠ [] then
    { name := name, isScoped := true, scopeProps := some scopeProps }
  else
    { name := name, isScoped := false }

mutual
/-- `findSlots` of `slot-parser.ts`: recursive walk threading the `seen`
name set and the `results` accumulator. -/
def findSlots (node : TemplateNode) (seen : List String)
    (results : List SlotDefinition) : List String × List SlotDefinition :=
  match node with
  | .node tag props children =>
    let st :=
      if tag = some "slot" then
        let name := resolveAstSlotName props
        if seen.contains name then (seen, results)
        else (name :: seen, results ++ [astSlotOfProps props])
      else (seen, results)
    findSlotsList children st.1 st.2

def findSlotsList (nodes : TemplateNodeList) (seen : List String)
    (results : List SlotDefinition) : List String × List SlotDefinition :=
  match nodes with
  | .nil => (seen, results)
  | .cons h t =>
    let st := findSlots h seen results
    findSlotsList t st.1 st.2
end

/-- `parseSlots` of `slot-parser.ts`, applied to the template AST obtained
from the external SFC parser (`none` when the descriptor has no template
block). -/
def parseSlotsAst (ast : Option TemplateNode) : List SlotDefinition :=
  match ast with
  | none => []
  | some node => (findSlots node [] []).2

/-!
### The linear text scan (`parseSlots` beside `props-parser.ts`)
-/

/-- The quote-tracking scan for the end of an opening tag (source lines
330–342): returns the characters before the first unquoted `>` and the
characters after it (everything, and `[]`, when no unquoted `>` exists). -/
def findTagEnd (inQuote : Option Char) : List Char → List Char × List Char
  | [] => ([], [])
  | c :: rest =>
    match inQuote with
    | some q =>
      let r := findTagEnd (if c = q then none else some q) rest
      (c :: r.1, r.2)
    | none =>
      if c = '"' ∨ c = '\'' then
        let r := findTagEnd (some c) rest
        (c :: r.1, r.2)
      else if c = '>' then ([], rest)
      else
        let r := findTagEnd none rest
        (c :: r.1, r.2)

/-- Position matcher for `/(?:^|\s)name=["']([^"']+)["']/` at a position
just after the boundary: `name=`, an opening quote, a non-empty run free of
both quote characters (the capture), then a closing quote of either kind.
Since the capture is the maximal quote-free run, the closing-quote
requirement is exactly that the run does not extend to the end. -/
def nameAttrMatchAt (s : List Char) : Option (List Char) :=
  if ("name=".data).isPrefixOf s then
    match s.drop 5 with
    | q :: r =>
      if q = '"' ∨ q = '\'' then
        let cap := r.takeWhile fun c => c ≠ '"' ∧ c ≠ '\''
        if cap ≠ [] ∧ cap.length < r.length then some cap else none
      else none
    | [] => none
  else none

/-- Position matcher for `/(?:^|\s):name=["']([^"']+)["']/` (dynamic slot
name, shorthand colon form only). -/
def dynNameMatchAt (s : List Char) : Option (List Char) :=
  if (":name=".data).isPrefixOf s then
    match s.drop 6 with
    | q :: r =>
      if q = '"' ∨ q = '\'' then
        let cap := r.takeWhile fun c => c ≠ '"' ∧ c ≠ '\''
        if cap ≠ [] ∧ cap.length < r.length then some cap else none
      else none
    | [] => none
  else none

/-- Driver for the `\s`-boundary positions of `(?:^|\s)…`: try `f` after
each whitespace character, left to right. -/
def scanAfterWs (f : List Char → Option α) : List Char → Option α
  | [] => none
  | c :: rest =>
    if isJsSpace c then (f rest).orElse fun _ => scanAfterWs f rest
    else scanAfterWs f rest

/-- Driver for `(?:^|\s)…`: the start-of-string position first, then every
position following a whitespace character. -/
def scanBoundary (f : List Char → Option α) (s : List Char) : Option α :=
  (f s).orElse fun _ => scanAfterWs f s

/-- Maps a tag body to the declared slot name (source lines 348–358). -/
def resolveSlotName (tagContent : List Char) : String :=
  match scanBoundary nameAttrMatchAt tagContent with
  | some cap => String.mk cap
  | none =>
    match scanBoundary dynNameMatchAt tagContent with
    | some cap => "[" ++ String.mk cap ++ "]"
    | none => "default"

/-- Position matcher for the binding pattern `(?:^|\s)(?::|v-bind:)(\w+)`
at a position just after the boundary; returns the captured word and the
suffix after it. -/
def bindMatchAt (s : List Char) : Option (List Char × List Char) :=
  match s with
  | ':' :: rest =>
    let w := rest.takeWhile isWordChar
    if w ≠ [] then some (w, rest.drop w.length) else none
  | _ =>
    if ("v-bind:".data).isPrefixOf s then
      let rest := s.drop 7
      let w := rest.takeWhile isWordChar
      if w ≠ [] then some (w, rest.drop w.length) else none
    else none

/-- The global scan of `bindRegex` (source lines 365–372): fuelled loop over
the tag body; the boolean records whether the current position is a valid
`(?:^|\s)` boundary. -/
def scanBindsF : Nat → Bool → List Char → List String
  | 0, _, _ => []
  | _ + 1, _, [] => []
  | fuel + 1, atB, c :: rest =>
    if atB then
      match bindMatchAt (c :: rest) with
      | some (w, rest') => String.mk w :: scanBindsF fuel false rest'
      | none => scanBindsF fuel (isJsSpace c) rest
    else scanBindsF fuel (isJsSpace c) rest

/-- All `(?:^|\s)(?::|v-bind:)(\w+)` captures of a tag body, in order. -/
def scanBinds (s : List Char) : List String :=
  scanBindsF (s.length + 1) true s

/-- The `afterSlot` character check of source lines 323–327: the tag is
processed unless the character following `<slot` exists and is none of
space, newline, tab, `/`, `>`. -/
def slotTagBoundaryOk (after : List Char) : Bool :=
  match after with
  | [] => true
  | c :: _ => c = ' ' ∨ c = '\n' ∨ c = '\t' ∨ c = '/' ∨ c = '>'

/-- The slot record built from one tag body (source lines 348–378). -/
def slotFromTag (tagContent : List Char) : SlotDefinition :=
  let name := resolveSlotName tagContent
  let scopeProps := (scanBinds tagContent).filter fun p => p ≠ "name" ∧ p ≠ "class"
  if scopeProps ≠ [] then
    { name := name, isScoped := true, scopeProps := some scopeProps }
  else
    { name := name, isScoped := false }

/-- The main `while` loop of the linear `parseSlots` (source lines 317–381),
fuelled: advance to each `<slot` occurrence, check the boundary character,
cut the tag body at the first unquoted `>`, and record the slot unless its
name was already seen. -/
def scanSlotsF : Nat → List String → List SlotDefinition → List Char →
    List SlotDefinition
  | 0, _, acc, _ => acc
  | _ + 1, _, acc, [] => acc
  | fuel + 1, seen, acc, c :: rest =>
    if ("<slot".data).isPrefixOf (c :: rest) then
      let after := (c :: rest).drop 5
      if slotTagBoundaryOk after then
        let te := findTagEnd none after
        let name := resolveSlotName te.1
        if seen.contains name then scanSlotsF fuel seen acc te.2
        else scanSlotsF fuel (name :: seen) (acc ++ [slotFromTag te.1]) te.2
      else scanSlotsF fuel seen acc after
    else scanSlotsF fuel seen acc rest

/-!
### `extractRootTemplate`
-/

/-- Position matcher for the initial `/<template\b[^>]*>/` (source line
269): the literal `<template`, a word boundary, a run of non-`>` characters,
then `>`; returns the match length. -/
def rootOpenMatchAt (s : List Char) : Option Nat :=
  if ("<template".data).isPrefixOf s then
    match s.drop 9 with
    | [] => none
    | c :: _ =>
      if isWordChar c then none
      else
        if ((s.drop 9).takeWhile fun c' => c' ≠ '>').length < (s.drop 9).length then
          some (9 + ((s.drop 9).takeWhile fun c' => c' ≠ '>').length + 1)
        else none
  else none

/-- Position matcher for the loop's opener `/<template[\s>]/` (source line
275): always of length 10. -/
def openTagMatchAt (s : List Char) : Option Nat :=
  if ("<template".data).isPrefixOf s then
    match s.drop 9 with
    | c :: _ => if isJsSpace c ∨ c = '>' then some 10 else none
    | [] => none
  else none

/-- Position matcher for the loop's closer `/<\/template\s*>/` (source line
276). -/
def closeTagMatchAt (s : List Char) : Option Nat :=
  if ("</template".data).isPrefixOf s then
    match (s.drop 10).drop ((s.drop 10).takeWhile isJsSpace).length with
    | c :: _ =>
      if c = '>' then some (10 + ((s.drop 10).takeWhile isJsSpace).length + 1)
      else none
    | [] => none
  else none

/-- `regex.exec` from a position: leftmost match in the given suffix, as a
(relative index, match length) pair. -/
def findNext (f : List Char → Option Nat) : List Char → Option (Nat × Nat)
  | [] =>
    match f [] with
    | some l => some (0, l)
    | none => none
  | c :: rest =>
    match f (c :: rest) with
    | some l => some (0, l)
    | none => (findNext f rest).map fun p => (p.1 + 1, p.2)

/-- The depth-tracking `while` loop of `extractRootTemplate` (source lines
278–297), fuelled.  `acc` is the current scan position relative to the end
of the opening tag; the result is the position of the closing tag that
returns the depth to zero (`none` when the loop ends without one, in which
case the source returns the empty string). -/
def templateLoopF : Nat → Nat → Nat → List Char → Option Nat
  | 0, _, _, _ => none
  | fuel + 1, depth, acc, s =>
    match findNext closeTagMatchAt s with
    | none => none
    | some (ci, cl) =>
      match findNext openTagMatchAt s with
      | some (oi, ol) =>
        if oi < ci then templateLoopF fuel (depth + 1) (acc + oi + ol) (s.drop (oi + ol))
        else if depth = 1 then some (acc + ci)
        else templateLoopF fuel (depth - 1) (acc + ci + cl) (s.drop (ci + cl))
      | none =>
        if depth = 1 then some (acc + ci)
        else templateLoopF fuel (depth - 1) (acc + ci + cl) (s.drop (ci + cl))

/-- `extractRootTemplate` of the linear `parseSlots` module (source lines
268–300). -/
def extractRootTemplate (content : List Char) : List Char :=
  match findNext rootOpenMatchAt content with
  | none => []
  | some (i, l) =>
    let body0 := content.drop (i + l)
    match templateLoopF (body0.length + 1) 1 0 body0 with
    | none => []
    | some endPos => body0.take endPos

/-- The linear `parseSlots` (source lines 306–384) on the descriptor text. -/
def parseSlotsLinear (content : String) : List SlotDefinition :=
  let template := extractRootTemplate content.data
  if template = [] then []
  else scanSlotsF (template.length + 1) [] [] template

/-!
## `composable-parser.ts`
-/

structure ComposableInfo where
  name : String
  fileName : String
  signature : String
  returnedMembers : List String
deriving DecidableEq, Repr

/-- Position matcher for the arrow-function pattern
`/export\s+const\s+(use\w+)\s*=\s*\(([^)]*)\)[^=]*=>\s*\{/`; returns the
captured callable name (with its `use` prefix) and the raw parameter-list
text.  `[^=]*` cannot contain `=`, so it always stops at the first `=`
after the parameter list, which must begin `=>`. -/
def matchArrowAt (s : List Char) : Option (List Char × List Char) :=
  if ("export".data).isPrefixOf s then
    let r1 := s.drop 6
    let ws1 := r1.takeWhile isJsSpace
    let r2 := r1.drop ws1.length
    if ws1 ≠ [] ∧ ("const".data).isPrefixOf r2 then
      let r3 := r2.drop 5
      let ws2 := r3.takeWhile isJsSpace
      let r4 := r3.drop ws2.length
      if ws2 ≠ [] ∧ ("use".data).isPrefixOf r4 then
        let w := (r4.drop 3).takeWhile isWordChar
        if w ≠ [] then
          let r5 := ((r4.drop 3).drop w.length).dropWhile isJsSpace
          match r5 with
          | '=' :: r6 =>
            match r6.dropWhile isJsSpace with
            | '(' :: r7 =>
              let params := r7.takeWhile fun c => c ≠ ')'
              if params.length < r7.length then
                let r8 := r7.drop (params.length + 1)
                let nonEq := r8.takeWhile fun c => c ≠ '='
                match r8.drop nonEq.length with
                | '=' :: '>' :: r9 =>
                  match r9.dropWhile isJsSpace with
                  | c :: _ =>
                    if c = Char.ofNat 123 then
                      some ('u' :: 's' :: 'e' :: w, params)
                    else none
                  | [] => none
                | _ => none
              else none
            | _ => none
          | _ => none
        else none
      else none
    else none
  else none

/-- Position matcher for the function-declaration pattern
`/export\s+function\s+(use\w+)\s*\(([^)]*)\)/`. -/
def matchFuncAt (s : List Char) : Option (List Char × List Char) :=
  if ("export".data).isPrefixOf s then
    let r1 := s.drop 6
    let ws1 := r1.takeWhile isJsSpace
    let r2 := r1.drop ws1.length
    if ws1 ≠ [] ∧ ("function".data).isPrefixOf r2 then
      let r3 := r2.drop 8
      let ws2 := r3.takeWhile isJsSpace
      let r4 := r3.drop ws2.length
      if ws2 ≠ [] ∧ ("use".data).isPrefixOf r4 then
        let w := (r4.drop 3).takeWhile isWordChar
        if w ≠ [] then
          let r5 := ((r4.drop 3).drop w.length).dropWhile isJsSpace
          match r5 with
          | '(' :: r6 =>
            let params := r6.takeWhile fun c => c ≠ ')'
            if params.length < r6.length then some ('u' :: 's' :: 'e' :: w, params)
            else none
          | _ => none
        else none
      else none
    else none
  else none

/-- Remove the first occurrence of `sub` (JavaScript
`String.prototype.replace` with a string pattern and empty replacement). -/
def removeFirstOcc (sub : List Char) : List Char → List Char
  | [] => []
  | c :: rest =>
    if sub.isPrefixOf (c :: rest) then (c :: rest).drop sub.length
    else c :: removeFirstOcc sub rest

/-- The global dash-to-camel replacement of source line 82 (pattern
`-([a-z])` with the `g` flag, replacement `c.toUpperCase()`): every dash
followed by a lowercase letter becomes that letter uppercased; scanning
resumes after each replacement. -/
def dashToCamel : List Char → List Char
  | [] => []
  | '-' :: c :: rest =>
    if 'a' ≤ c ∧ c ≤ 'z' then c.toUpper :: dashToCamel rest
    else '-' :: dashToCamel (c :: rest)
  | c :: rest => c :: dashToCamel rest

/-- Position matcher for `/return\s*\{([^}]*(?:\{[^}]*\}[^}]*)*)\}/`.

The capture sub-pattern can never engage its nested group on a successful
match: the greedy `[^}]*` stops exactly at the first closing brace (or the
end), at which point the group (which must start with an opening brace)
fails and the final closing brace matches immediately — so the effective
capture is everything up to the first closing brace, which must exist.
Returns the capture and the suffix after the consumed closing brace. -/
def matchReturnBlockAt (s : List Char) : Option (List Char × List Char) :=
  if ("return".data).isPrefixOf s then
    match (s.drop 6).dropWhile isJsSpace with
    | c :: r2 =>
      if c = Char.ofNat 123 then
        if (r2.takeWhile fun c' => c' ≠ Char.ofNat 125).length < r2.length then
          some (r2.takeWhile fun c' => c' ≠ Char.ofNat 125,
            r2.drop ((r2.takeWhile fun c' => c' ≠ Char.ofNat 125).length + 1))
        else none
      else none
    | [] => none
  else none

/-- The `matchAll` loop collecting every return-block capture, fuelled. -/
def findReturnBlocksF : Nat → List Char → List (List Char)
  | 0, _ => []
  | _ + 1, [] => []
  | fuel + 1, c :: rest =>
    match matchReturnBlockAt (c :: rest) with
    | some (cap, rest') => cap :: findReturnBlocksF fuel rest'
    | none => findReturnBlocksF fuel rest

/-- All return-block captures of a text, in order. -/
def findReturnBlocks (l : List Char) : List (List Char) :=
  findReturnBlocksF (l.length + 1) l

/-- Position matcher for the member pattern `/(\w+)(?:\s*[:,]|\s*$)/`: a
maximal non-empty word run followed (after optional whitespace) by `:`,
`,`, or the end of the text.  Returns the capture and the suffix after the
match. -/
def memberMatchAt (s : List Char) : Option (List Char × List Char) :=
  let w := s.takeWhile isWordChar
  if w = [] then none
  else
    let rest := s.drop w.length
    let ws := rest.takeWhile isJsSpace
    match rest.drop ws.length with
    | c :: r2 => if c = ':' ∨ c = ',' then some (w, r2) else none
    | [] => some (w, [])

/-- The `memberRegex` global scan, fuelled. -/
def memberScanF : Nat → List Char → List (List Char)
  | 0, _ => []
  | _ + 1, [] => []
  | fuel + 1, c :: rest =>
    match memberMatchAt (c :: rest) with
    | some (w, rest') => w :: memberScanF fuel rest'
    | none => memberScanF fuel rest

/-- All member captures of a return-block body, in order. -/
def memberScan (l : List Char) : List (List Char) :=
  memberScanF (l.length + 1) l

/-- The denylist of `composable-parser.ts` line 114. -/
def keywordDenylist : List String :=
  ["return", "const", "let", "var", "if", "else", "value"]

/-- The `returnedMembers` computation (source lines 104–118): captures of
the member pattern over the body of the last return block, with denylisted
identifiers skipped. -/
def returnedMembersOf (content : List Char) : List String :=
  match (findReturnBlocks content).getLast? with
  | none => []
  | some lastReturn =>
    ((memberScan lastReturn).map String.mk).filter fun m =>
      ¬ keywordDenylist.contains m

/-- One parameter's `name: type` normalization (source lines 93–99). -/
def paramSig (p : List Char) : List Char :=
  let pre := p.takeWhile fun c => c ≠ ':'
  if pre.length < p.length then
    trimChars pre ++ (':' :: ' ' :: trimChars (p.drop (pre.length + 1)))
  else p

/-- `parseComposable` of `composable-parser.ts`, over the file text and its
base name. -/
def parseComposable (content fileName : String) : ComposableInfo :=
  let arrowMatch := scanFirst matchArrowAt content.data
  let funcMatch := scanFirst matchFuncAt content.data
  let m := arrowMatch.orElse fun _ => funcMatch
  let name := match m with
    | some (n, _) => String.mk n
    | none => String.mk (dashToCamel (removeFirstOcc ".ts".data fileName.data))
  let params := match m with
    | some (_, p) => trimChars p
    | none => []
  let paramParts := ((params.splitOn ',').map trimChars).filter fun p => p ≠ []
  let signature :=
    if paramParts ≠ [] then
      "(" ++ String.intercalate ", " (paramParts.map fun p => String.mk (paramSig p)) ++ ")"
    else "()"
  { name := name, fileName := fileName, signature := signature,
    returnedMembers := returnedMembersOf content.data }

/-!
## `getSubComponents` (`utils.ts`)
-/

/-- A directory entry as `readdirSync`/`statSync` present it: a plain file
or a subdirectory with its own entries. -/
inductive FsEntry where
  | file (name : String)
  | dir (name : String) (entries : List FsEntry)

/-- The entry's name as listed by `readdirSync`. -/
def FsEntry.name : FsEntry → String
  | .file n => n
  | .dir n _ => n

/-- `existsSync(join(dirPath, n))` relative to a directory listing. -/
def existsName (entries : List FsEntry) (n : String) : Bool :=
  entries.any fun e => e.name = n

/-- `path.extname`: from the last `.`, when it exists and is not the first
character; `""` otherwise. -/
def extname (n : String) : String :=
  let l := n.data
  let revAfter := l.reverse.takeWhile fun c => c ≠ '.'
  if revAfter.length + 1 < l.length then String.mk ('.' :: revAfter.reverse)
  else ""

/-- JavaScript `split('-')` on character lists. -/
def splitOnDash : List Char → List (List Char)
  | [] => [[]]
  | c :: rest =>
    if c = '-' then [] :: splitOnDash rest
    else
      match splitOnDash rest with
      | p :: ps => (c :: p) :: ps
      | [] => [[c]]

/-- `charAt(0).toUpperCase() + slice(1)` for one kebab segment. -/
def capitalizePart (p : List Char) : String :=
  match p with
  | [] => ""
  | c :: rest => String.mk (c.toUpper :: rest)

/-- `toPascalCase` of `utils.ts`. -/
def toPascalCase (kebab : String) : String :=
  String.join ((splitOnDash kebab.data).map capitalizePart)

/-- `entry.replace('.vue', '')` (first occurrence). -/
def removeVueExt (n : String) : String :=
  String.mk (removeFirstOcc ".vue".data n.data)

structure SubComponentMeta where
  name : String
  pascalName : String
  hasProps : Bool
deriving DecidableEq, Repr

/-- The per-entry body of the `getSubComponents` loop (`utils.ts` lines
27–58).  `entries` is the owning component directory's listing (consulted
for the flat-file sibling check). -/
def entrySubs (entries : List FsEntry) (componentName : String) :
    FsEntry → List SubComponentMeta
  | .dir entry inner =>
    let hasTs := existsName inner (entry ++ ".ts")
    let hasVue := existsName inner (entry ++ ".vue")
    let innerVues := inner.filter fun e => extname e.name = ".vue"
    if hasTs ∨ hasVue then
      [{ name := entry, pascalName := toPascalCase entry, hasProps := hasTs }]
    else if innerVues.length > 0 then
      innerVues.map fun v =>
        let vueName := removeVueExt v.name
        { name := vueName, pascalName := vueName, hasProps := false }
    else []
  | .file entry =>
    if extname entry = ".vue" then
      let fileName := removeVueExt entry
      if fileName ≠ componentName then
        [{ name := fileName, pascalName := toPascalCase fileName,
           hasProps := existsName entries (fileName ++ ".ts") }]
      else []
    else []

/-- `getSubComponents` of `utils.ts`, over the component directory's
listing. -/
def getSubComponents (entries : List FsEntry) (componentName : String) :
    List SubComponentMeta :=
  entries.foldl (fun subs e => subs ++ entrySubs entries componentName e) []

/-!
## The `get_tokens` handler (`index.ts` lines 537–581)

The six token parsers live in `token-parser.ts` and only produce the data
that the handler serializes on its success paths; the claim under study
concerns the `default` branch, so the parsed-and-serialized results are
abstracted as the six text fields below.
-/

structure ToolContent where
  type : String
  text : String
deriving DecidableEq, Repr

structure ToolResult where
  content : List ToolContent
  isError : Bool := false
deriving DecidableEq, Repr

structure TokenParsers where
  colorsText : String
  spacingText : String
  radiusText : String
  maxWidthText : String
  utilitiesText : String
  allText : String

/-- A non-error text result. -/
def textResult (t : String) : ToolResult :=
  { content := [{ type := "text", text := t }] }

/-- The `get_tokens` `switch` (source lines 542–580). -/
def getTokensHandler (p : TokenParsers) (tokenType : String) : ToolResult :=
  match tokenType with
  | "colors" => textResult p.colorsText
  | "spacing" => textResult p.spacingText
  | "radius" => textResult p.radiusText
  | "maxWidth" => textResult p.maxWidthText
  | "utilities" => textResult p.utilitiesText
  | "all" => textResult p.allText
  | _ =>
    let msg := "Invalid token type \"" ++ tokenType ++
      "\". Use one of: colors, spacing, radius, maxWidth, utilities, all"
    { content := [{ type := "text", text := msg }], isError := true }

/-!
## Specification-side helpers

The definitions below are not embeddings of repository code; they are
reference formulations used to state properties: a first-occurrence-wins
deduplication, no-dedup collectors for both slot extractors, a generative
family of well-formed slot markers rendered both to descriptor text and to
the template AST any correct structural parse yields, and concrete fixture
inputs.
-/

/-- First-occurrence-wins deduplication by slot name against an initial
`seen` set; returns the final seen set and the kept declarations. -/
def dedupPair (seen : List String) :
    List SlotDefinition → List String × List SlotDefinition
  | [] => (seen, [])
  | d :: ds =>
    if seen.contains d.name then dedupPair seen ds
    else
      let r := dedupPair (d.name :: seen) ds
      (r.1, d :: r.2)

/-- First-occurrence-wins deduplication by slot name. -/
def firstWins (l : List SlotDefinition) : List SlotDefinition :=
  (dedupPair [] l).2

mutual
/-- Every slot declaration of the template AST in document (preorder)
order, without deduplication. -/
def collectSlots : TemplateNode → List SlotDefinition
  | .node tag props children =>
    (if tag = some "slot" then [astSlotOfProps props] else []) ++
      collectSlotsList children

def collectSlotsList : TemplateNodeList → List SlotDefinition
  | .nil => []
  | .cons h t => collectSlots h ++ collectSlotsList t
end

/-- The linear tag scan without deduplication: one slot declaration per
accepted `<slot` tag, in document order. -/
def scanAllTagsF : Nat → List Char → List SlotDefinition
  | 0, _ => []
  | _ + 1, [] => []
  | fuel + 1, c :: rest =>
    if ("<slot".data).isPrefixOf (c :: rest) then
      let after := (c :: rest).drop 5
      if slotTagBoundaryOk after then
        let te := findTagEnd none after
        slotFromTag te.1 :: scanAllTagsF fuel te.2
      else scanAllTagsF fuel after
    else scanAllTagsF fuel rest

/-- All slot declarations found by the linear scan of a descriptor, in
document order, without deduplication. -/
def allSlotsLinear (content : String) : List SlotDefinition :=
  let template := extractRootTemplate content.data
  if template = [] then []
  else scanAllTagsF (template.length + 1) template

/-- A well-formed slot marker: an optional static `name` attribute and a
list of shorthand-colon bindings `:key="value"`. -/
structure SlotMarker where
  nameAttr : Option String
  binds : List (String × String)

/-- Identifier strings: non-empty and made of word characters only. -/
def wordStr (s : String) : Bool :=
  s.data ≠ [] && s.data.all isWordChar

/-- Well-formedness of a marker: name and every binding key and value are
identifier strings, and no binding key is the reserved dynamic-name key
`name` (a dynamic slot name is written as a directive, not a scope
binding). -/
def markerOk (m : SlotMarker) : Bool :=
  (match m.nameAttr with
   | some n => wordStr n
   | none => true) &&
  m.binds.all fun b => wordStr b.1 && (b.1 ≠ "name" : Bool) && wordStr b.2

/-- Text rendering of one binding: ` :key="value"`. -/
def renderBind (b : String × String) : List Char :=
  ' ' :: ':' :: (b.1.data ++ '=' :: '"' :: (b.2.data ++ ['"']))

/-- Text rendering of a marker's attribute list. -/
def renderAttrs (m : SlotMarker) : List Char :=
  (match m.nameAttr with
   | some n => ' ' :: ("name=\"".data ++ n.data ++ ['"'])
   | none => []) ++ (m.binds.map renderBind).flatten

/-- Text rendering of a marker as a slot tag. -/
def renderSlotTag (m : SlotMarker) : List Char :=
  ("<slot".data ++ renderAttrs m) ++ ('>' :: "</slot>".data)

/-- Text rendering of a full single-file descriptor holding the markers. -/
def renderDoc (ms : List SlotMarker) : List Char :=
  ("<template>".data ++ (ms.map renderSlotTag).flatten) ++ "</template>".data

/-- The attribute records any correct structural parse produces for a
marker. -/
def astProps (m : SlotMarker) : List TemplateProp :=
  (match m.nameAttr with
   | some n => [{ type := 6, name := "name", value := some n }]
   | none => []) ++
  m.binds.map fun b =>
    { type := 7, name := "bind", arg := some b.1, exp := some b.2 }

/-- List-to-AST-children conversion. -/
def toNodeList : List TemplateNode → TemplateNodeList
  | [] => .nil
  | n :: ns => .cons n (toNodeList ns)

/-- The template AST any correct structural parse yields for the rendered
descriptor: a root `template` node whose children are the slot nodes.
Modelled from the spec: the structural markup parser itself is the external
SFC compiler, not repository code; per §4.2 it performs "a full structural
parse of the markup into a tree" whose extension-point markers carry their
static attributes and bound expressions. -/
def astOfMarkers (ms : List SlotMarker) : TemplateNode :=
  .node (some "template") []
    (toNodeList (ms.map fun m => .node (some "slot") (astProps m) .nil))

/-- Decidable "the matcher `f` matches at none of the first `len` positions
at or after `start`" condition used to state scan-location hypotheses. -/
def noMatchIn (f : List Char → Option α) (l : List Char)
    (start len : Nat) : Bool :=
  (List.range len).all fun j => (f (l.drop (start + j))).isNone

/-- Fixture for the round-trip property: a literal-array constant `x` and a
`testPropTypes` object with a single property whose `type` field reads
`PropType<typeof x[number]>`. -/
def roundTripFile (x : String) (vals : List String) (propName : String) :
    SourceFile :=
  { decls := [
      { name := x,
        initializer := some (TsNode.asExpr
          ("[" ++ String.intercalate ", " (vals.map fun v => "'" ++ v ++ "'") ++ "] as const")
          (TsNode.arrayLit
            ("[" ++ String.intercalate ", " (vals.map fun v => "'" ++ v ++ "'") ++ "]")
            (vals.map fun v => TsNode.stringLit ("'" ++ v ++ "'")))) },
      { name := "testPropTypes",
        initializer := some (TsNode.objectLit "" [
          TsMember.assignment propName []
            (some (TsNode.objectLit "" [
              TsMember.assignment "type" []
                (some (TsNode.otherExpr ("PropType<typeof " ++ x ++ "[number]>")))]))]) }] }

/-- Fixture for the primitive-constructor mapping: one `PropTypes` object
with a single property whose `type` field is the given constructor text. -/
def simpleTypeFile (t : String) : SourceFile :=
  { decls := [
      { name := "testPropTypes",
        initializer := some (TsNode.objectLit "" [
          TsMember.assignment "p" []
            (some (TsNode.objectLit "" [
              TsMember.assignment "type" [] (some (TsNode.otherExpr t))]))]) }] }

/-- The recognized `get_tokens` categories. -/
def validTokenTypes : List String :=
  ["colors", "spacing", "radius", "maxWidth", "utilities", "all"]

/-- Rendering of one top-level `return { … }` block with the given body. -/
def renderReturnBlock (m : List Char) : List Char :=
  "return ".data ++ (Char.ofNat 123 :: (m ++ [Char.ofNat 125]))

/-- A file text holding exactly two return blocks, with arbitrary
surrounding text. -/
def twoReturnDoc (a m1 b m2 c : List Char) : List Char :=
  a ++ (renderReturnBlock m1 ++ (b ++ (renderReturnBlock m2 ++ c)))

/-- The canonical opening marker of a structural-markup region. -/
def tplOpenTok : List Char := "<template>".data

/-- The canonical closing marker of a structural-markup region. -/
def tplCloseTok : List Char := "</template>".data

/-- The region body holding one nested marker pair: filler `b1`, a nested
opener, filler `b2`, the nested closer, filler `b3`; followed by the outer
closer and trailing text `c`. -/
def nestedTemplateBody (b1 b2 b3 c : List Char) : List Char :=
  b1 ++ (tplOpenTok ++ (b2 ++ (tplCloseTok ++ (b3 ++ (tplCloseTok ++ c)))))

/-- A descriptor whose outermost structural-markup region contains a nested
marker of the same kind. -/
def nestedTemplateDoc (a b1 b2 b3 c : List Char) : List Char :=
  a ++ (tplOpenTok ++ nestedTemplateBody b1 b2 b3 c)

/-!
## General lemmas about the scanning primitives
-/

theorem isPrefixOf_append_self (p l : List Char) : p.isPrefixOf (p ++ l) = true := by
  induction p with
  | nil => simp [List.isPrefixOf]
  | cons c cs ih => simp [List.isPrefixOf, ih]

theorem isPrefixOf_cons₂ (a b : Char) (as bs : List Char) :
    (a :: as).isPrefixOf (b :: bs) = (a == b && as.isPrefixOf bs) := rfl

theorem drop_append_len {p : List Char} (l : List Char) {n : Nat}
    (h : p.length = n) : (p ++ l).drop n = l := by
  subst h; exact List.drop_left p l

theorem takeWhile_append_all {f : Char → Bool} {xs : List Char}
    (h : ∀ c ∈ xs, f c = true) (ys : List Char) :
    (xs ++ ys).takeWhile f = xs ++ ys.takeWhile f := by
  induction xs with
  | nil => rfl
  | cons c cs ih =>
    simp only [List.cons_append, List.takeWhile_cons]
    rw [h c (by simp), if_pos rfl, ih fun c hc => h c (by simp [hc])]

theorem takeWhile_eq_nil_of_head {f : Char → Bool} {c : Char}
    (h : f c = false) (l : List Char) : (c :: l).takeWhile f = [] := by
  simp [List.takeWhile_cons, h]

theorem scanFirst_of_match {f : List Char → Option α} {l : List Char} {a : α}
    (h : f l = some a) : scanFirst f l = some a := by
  cases l <;> simp [scanFirst, h]

theorem scanFirst_skip_heads {f : List Char → Option α} (g : Char → Bool)
    (hf : ∀ c l, g c = false → f (c :: l) = none)
    (xs ys : List Char) (hxs : ∀ c ∈ xs, g c = false) :
    scanFirst f (xs ++ ys) = scanFirst f ys := by
  induction xs with
  | nil => rfl
  | cons c cs ih =>
    have h0 : f (c :: List.append cs ys) = none := hf c _ (hxs c (by simp))
    simp only [List.cons_append, scanFirst, h0, Option.none_orElse]
    exact ih fun c hc => hxs c (by simp [hc])

theorem containsSub_of_prefix {sub l : List Char}
    (h : sub.isPrefixOf l = true) : containsSub sub l = true := by
  cases l with
  | nil => simpa [containsSub] using h
  | cons c rest => simp [containsSub, h]

theorem wordChar_ne {c : Char} (h : isWordChar c = true) {d : Char}
    (hd : isWordChar d = false) : c ≠ d := by
  intro he; rw [he] at h; rw [h] at hd; cases hd

theorem wordChar_not_space {c : Char} (h : isWordChar c = true) :
    isJsSpace c = false := by
  by_cases h2 : isJsSpace c = true
  · exfalso
    simp only [isJsSpace, decide_eq_true_eq] at h2
    rcases h2 with rfl | rfl | rfl | rfl | rfl | rfl <;>
      exact absurd h (by decide)
  · simpa using h2

/-!
## Claim C9: invalid `get_tokens` category
-/

/-- C9: for every `type` argument outside the six recognized categories,
the `get_tokens` handler returns a structured result with `isError` set and
a message containing the substring `Invalid token type`, and (being a total
function) raises no exception. -/
theorem getTokens_invalid_type_error (p : TokenParsers) (tokenType : String)
    (h : tokenType ∉ validTokenTypes) :
    (getTokensHandler p tokenType).isError = true ∧
    (getTokensHandler p tokenType).content.any
      (fun c => containsStr c.text "Invalid token type") = true := by
  simp only [validTokenTypes, List.mem_cons, List.not_mem_nil, or_false,
    not_or] at h
  obtain ⟨h1, h2, h3, h4, h5, h6⟩ := h
  unfold getTokensHandler
  split
  · exact absurd rfl h1
  · exact absurd rfl h2
  · exact absurd rfl h3
  · exact absurd rfl h4
  · exact absurd rfl h5
  · exact absurd rfl h6
  refine ⟨rfl, ?_⟩
  simp only [List.any_cons, List.any_nil, Bool.or_false]
  unfold containsStr
  apply containsSub_of_prefix
  have hsplit : ("Invalid token type \"" ++ tokenType ++
      "\". Use one of: colors, spacing, radius, maxWidth, utilities, all").data =
      "Invalid token type".data ++ (' ' :: '"' :: (tokenType ++
        "\". Use one of: colors, spacing, radius, maxWidth, utilities, all").data) := by
    rw [String.data_append, String.data_append,
      show ("Invalid token type \"").data = "Invalid token type".data ++ [' ', '"'] by decide,
      String.data_append, List.append_assoc]
    rfl
  rw [hsplit]
  exact isPrefixOf_append_self _ _

/-- C9 witness: the handler at the concrete argument `bogus`. -/
theorem getTokens_invalid_type_error_witness :
    (getTokensHandler ⟨"", "", "", "", "", ""⟩ "bogus").isError = true ∧
    (getTokensHandler ⟨"", "", "", "", "", ""⟩ "bogus").content.any
      (fun c => containsStr c.text "Invalid token type") = true :=
  getTokens_invalid_type_error ⟨"", "", "", "", "", ""⟩ "bogus" (by decide)

/-!
## Claim C10: the member denylist contains `value`
-/

/-- C10: `parseComposable` never reports a returned member named `value`:
the denylist applied to candidate member names contains the non-keyword
identifier `value`, so even a genuinely exposed member of that name is
omitted from `returnedMembers`. -/
theorem parseComposable_never_reports_value (content fileName : String) :
    "value" ∉ (parseComposable content fileName).returnedMembers := by
  have hrm : (parseComposable content fileName).returnedMembers =
      returnedMembersOf content.data := rfl
  rw [hrm]
  unfold returnedMembersOf
  split
  · simp
  · intro hmem
    rw [List.mem_filter] at hmem
    exact absurd hmem.2 (by decide)

/-!
## Claim C2: primitive-constructor type tags
-/

/-- C2 counterexample: a property whose `type` field reads `Array` is
extracted with `type = "Array"`, not the lowercase tag `"array"` the claim
requires. -/
theorem resolveType_Array_not_lowercased :
    (parseComponentProps (simpleTypeFile "Array")).props =
      [{ name := "p", type := "Array" }] ∧ ("Array" : String) ≠ "array" := by
  decide

/-- C2 as amended: `String`, `Boolean`, `Number` map to the lowercase tags
`string`, `boolean`, `number`; `Array`, `Object`, `Function` are kept
verbatim (capitalized). -/
theorem resolveType_constructor_mapping :
    (parseComponentProps (simpleTypeFile "String")).props =
      [{ name := "p", type := "string" }] ∧
    (parseComponentProps (simpleTypeFile "Boolean")).props =
      [{ name := "p", type := "boolean" }] ∧
    (parseComponentProps (simpleTypeFile "Number")).props =
      [{ name := "p", type := "number" }] ∧
    (parseComponentProps (simpleTypeFile "Array")).props =
      [{ name := "p", type := "Array" }] ∧
    (parseComponentProps (simpleTypeFile "Object")).props =
      [{ name := "p", type := "Object" }] ∧
    (parseComponentProps (simpleTypeFile "Function")).props =
      [{ name := "p", type := "Function" }] := by
  decide

/-!
## Claim C3: totality and empty results on missing blocks
-/

theorem foldl_propTypesStep_skip (ca : List (String × List String))
    (l : List VariableDeclaration) (acc : List PropDefinition)
    (h : ∀ d ∈ l, endsWithStr d.name "PropTypes" = false) :
    l.foldl (propTypesStep ca) acc = acc := by
  induction l generalizing acc with
  | nil => rfl
  | cons d ds ih =>
    rw [List.foldl_cons,
      show propTypesStep ca acc d = acc by
        simp [propTypesStep, h d (by simp)]]
    exact ih acc fun d' hd' => h d' (by simp [hd'])

theorem foldl_emitTypesStep_skip (l : List VariableDeclaration)
    (acc : List EmitDefinition)
    (h : ∀ d ∈ l, endsWithStr d.name "EmitTypes" = false ∧
      endsWithStr d.name "emitTypes" = false) :
    l.foldl emitTypesStep acc = acc := by
  induction l generalizing acc with
  | nil => rfl
  | cons d ds ih =>
    rw [List.foldl_cons,
      show emitTypesStep acc d = acc by
        simp [emitTypesStep, (h d (by simp)).1, (h d (by simp)).2]]
    exact ih acc fun d' hd' => h d' (by simp [hd'])

/-- C3: `parseComponentProps` is a total function returning a
`{props, emits}` pair; a file with no `*PropTypes` declaration yields
`props = []`, and one with no `*EmitTypes`/`*emitTypes` declaration yields
`emits = []`. -/
theorem parseComponentProps_empty_on_missing_blocks (sf : SourceFile) :
    ((∀ d ∈ sf.decls, endsWithStr d.name "PropTypes" = false) →
      (parseComponentProps sf).props = []) ∧
    ((∀ d ∈ sf.decls, endsWithStr d.name "EmitTypes" = false ∧
        endsWithStr d.name "emitTypes" = false) →
      (parseComponentProps sf).emits = []) := by
  constructor
  · intro h
    show sf.decls.foldl (propTypesStep (extractConstArrays sf)) [] = []
    exact foldl_propTypesStep_skip _ _ _ h
  · intro h
    show sf.decls.foldl emitTypesStep [] = []
    exact foldl_emitTypesStep_skip _ _ h

/-- C3 witness: a file with a single unrelated declaration. -/
theorem parseComponentProps_empty_witness :
    (parseComponentProps { decls := [{ name := "foo", initializer := none }] }).props = [] ∧
    (parseComponentProps { decls := [{ name := "foo", initializer := none }] }).emits = [] :=
  ⟨(parseComponentProps_empty_on_missing_blocks _).1 (by decide),
   (parseComponentProps_empty_on_missing_blocks _).2 (by decide)⟩

/-!
## Claim C8: `hasProps` across the three discovery patterns
-/

/-- The same-named definition file whose existence `hasProps` actually
reflects, per directory-entry shape. -/
def expectedHasProps (entries : List FsEntry) : FsEntry → Bool
  | .dir n inner => existsName inner (n ++ ".ts")
  | .file f => existsName entries (removeVueExt f ++ ".ts")

theorem foldl_append_flatten (g : FsEntry → List SubComponentMeta) :
    ∀ (l : List FsEntry) (acc : List SubComponentMeta),
      l.foldl (fun subs e => subs ++ g e) acc = acc ++ (l.map g).flatten := by
  intro l
  induction l with
  | nil => simp
  | cons e es ih => intro acc; simp [ih, List.append_assoc]

theorem getSubComponents_eq_flatten (entries : List FsEntry) (cname : String) :
    getSubComponents entries cname =
      (entries.map (entrySubs entries cname)).flatten := by
  simpa using foldl_append_flatten (entrySubs entries cname) entries []

theorem entrySubs_hasProps (entries : List FsEntry) (cname : String)
    (e : FsEntry) (sub : SubComponentMeta) (h : sub ∈ entrySubs entries cname e) :
    sub.hasProps = expectedHasProps entries e := by
  cases e with
  | dir n inner =>
    simp only [entrySubs] at h
    split at h
    · next hcond =>
        simp only [List.mem_singleton] at h
        simp [h, expectedHasProps]
    · split at h
      · rw [List.mem_map] at h
        obtain ⟨v, hv, hsub⟩ := h
        next hcond _ =>
          have hts : existsName inner (n ++ ".ts") = false := by
            rcases Bool.eq_false_or_eq_true (existsName inner (n ++ ".ts")) with h' | h'
            · exact absurd (Or.inl h') hcond
            · exact h'
          simp [← hsub, hts, expectedHasProps]
      · simp at h
  | file f =>
    simp only [entrySubs] at h
    split at h
    · split at h
      · simp only [List.mem_singleton] at h
        simp [h, expectedHasProps]
      · simp at h
    · simp at h

/-- C8 counterexample: a subdirectory `inner` containing `bar.vue` and a
matching definition file `bar.ts`; the discovered sub-entity still carries
`hasProps = false` although a matching definition file exists alongside the
matched descriptor file. -/
theorem getSubComponents_pattern2_counterexample :
    getSubComponents
        [FsEntry.dir "inner" [FsEntry.file "bar.vue", FsEntry.file "bar.ts"]]
        "comp" =
      [{ name := "bar", pascalName := "bar", hasProps := false }] ∧
    existsName [FsEntry.file "bar.vue", FsEntry.file "bar.ts"] ("bar" ++ ".ts") = true := by
  constructor
  · rfl
  · rfl

/-- C8 as amended: `hasProps` reflects only the same-named definition file:
for a subdirectory entry `n` it equals the existence of `n/n.ts` (hence is
always `false` in the differently-named-descriptor pattern, whose guard
requires that no same-named file exists), and for a flat descriptor file it
equals the existence of a sibling `<name>.ts`; the differently-named
definition files inside a subdirectory are never consulted. -/
theorem getSubComponents_hasProps (entries : List FsEntry) (cname : String)
    (sub : SubComponentMeta) (h : sub ∈ getSubComponents entries cname) :
    ∃ e ∈ entries, sub ∈ entrySubs entries cname e ∧
      sub.hasProps = expectedHasProps entries e := by
  rw [getSubComponents_eq_flatten] at h
  rw [List.mem_flatten] at h
  obtain ⟨l, hl, hsub⟩ := h
  rw [List.mem_map] at hl
  obtain ⟨e, he, rfl⟩ := hl
  exact ⟨e, he, hsub, entrySubs_hasProps entries cname e sub hsub⟩

/-- C8 witness for the amended claim, at the nested same-named pattern. -/
theorem getSubComponents_hasProps_witness :
    ∃ e ∈ [FsEntry.dir "x" [FsEntry.file "x.ts", FsEntry.file "x.vue"]],
      ({ name := "x", pascalName := "X", hasProps := true } : SubComponentMeta) ∈
        entrySubs [FsEntry.dir "x" [FsEntry.file "x.ts", FsEntry.file "x.vue"]] "comp" e ∧
      ({ name := "x", pascalName := "X", hasProps := true } : SubComponentMeta).hasProps =
        expectedHasProps [FsEntry.dir "x" [FsEntry.file "x.ts", FsEntry.file "x.vue"]] e :=
  getSubComponents_hasProps
    [FsEntry.dir "x" [FsEntry.file "x.ts", FsEntry.file "x.vue"]] "comp"
    { name := "x", pascalName := "X", hasProps := true }
    (by
      rw [show getSubComponents
          [FsEntry.dir "x" [FsEntry.file "x.ts", FsEntry.file "x.vue"]] "comp" =
          [{ name := "x", pascalName := "X", hasProps := true }] from rfl]
      exact List.mem_singleton.mpr rfl)

/-!
## Claim C1: the `typeof <Const>` round trip
-/

theorem typeText_data (x : String) :
    ("PropType<typeof " ++ x ++ "[number]>").data =
      "PropType<".data ++ ("typeof ".data ++ (x.data ++ "[number]>".data)) := by
  rw [String.data_append, String.data_append,
    show "PropType<typeof ".data = "PropType<".data ++ "typeof ".data by decide,
    List.append_assoc, List.append_assoc]

theorem c1_propType_scan (x : String)
    (hx2 : ∀ c ∈ x.data, isWordChar c = true) :
    scanFirst matchPropTypeAt ("PropType<typeof " ++ x ++ "[number]>").data =
      some ("typeof ".data ++ (x.data ++ "[number]".data)) := by
  rw [typeText_data]
  apply scanFirst_of_match
  simp only [matchPropTypeAt, isPrefixOf_append_self, if_true]
  rw [drop_append_len _ (by decide : ("PropType<".data).length = 9)]
  have hgt : ∀ c ∈ x.data, (fun c => decide ¬(c = '>')) c = true := by
    intro c hc
    simp [wordChar_ne (hx2 c hc) (by decide : isWordChar '>' = false)]
  rw [takeWhile_append_all (by decide), takeWhile_append_all hgt,
    show ("[number]>".data).takeWhile (fun c => decide ¬(c = '>')) = "[number]".data by decide]
  rw [if_pos]
  refine ⟨?_, ?_⟩
  · apply List.ne_nil_of_length_pos
    simp [List.length_append]
  · simp only [List.length_append, List.length_cons, List.length_nil]
    omega

theorem c1_typeof_scan (x : String) (hx1 : x.data ≠ [])
    (hx2 : ∀ c ∈ x.data, isWordChar c = true) :
    scanFirst matchTypeofAt ("PropType<typeof " ++ x ++ "[number]>").data =
      some x.data := by
  rw [typeText_data]
  rw [scanFirst_skip_heads (fun c => c == 't')
    (fun c l hc => by
      have hc' : (c == 't') = false := hc
      unfold matchTypeofAt
      rw [if_neg (by
        rw [show "typeof".data = 't' :: "ypeof".data by decide, isPrefixOf_cons₂,
          Bool.and_eq_true]
        rintro ⟨h1, -⟩
        rw [beq_iff_eq] at h1
        rw [← h1] at hc'
        simp at hc')])
    _ _ (by decide)]
  apply scanFirst_of_match
  obtain ⟨c0, L', hL⟩ := List.exists_cons_of_ne_nil hx1
  have hsplit : "typeof ".data ++ (x.data ++ "[number]>".data) =
      "typeof".data ++ (' ' :: (x.data ++ "[number]>".data)) := by
    rw [show "typeof ".data = "typeof".data ++ [' '] by decide, List.append_assoc]
    rfl
  rw [hsplit]
  have hws : (' ' :: (x.data ++ "[number]>".data)).takeWhile isJsSpace = [' '] := by
    rw [List.takeWhile_cons, if_pos (by decide)]
    rw [hL, List.cons_append,
      takeWhile_eq_nil_of_head (wordChar_not_space (hx2 c0 (by rw [hL]; simp)))]
  have hword : (x.data ++ "[number]>".data).takeWhile isWordChar = x.data := by
    rw [takeWhile_append_all hx2,
      show ("[number]>".data).takeWhile isWordChar = [] by decide, List.append_nil]
  unfold matchTypeofAt
  rw [if_pos (by exact isPrefixOf_append_self _ _)]
  rw [drop_append_len _ (by decide : ("typeof".data).length = 6)]
  simp only [hws, List.length_cons, List.length_nil, List.drop_succ_cons,
    List.drop_zero, hword]
  rw [if_pos ⟨by simp, hx1⟩]

theorem c1_constArrays (x : String) (vals : List String) (propName : String)
    (hv : vals ≠ [])
    (hq : ∀ v ∈ vals, ∀ c ∈ v.data, c ≠ '\'' ∧ c ≠ '"') :
    extractConstArrays (roundTripFile x vals propName) = [(x, vals)] := by
  have hval : (vals.map fun v => TsNode.stringLit ("'" ++ v ++ "'")).filterMap
      (fun e => match e with
        | TsNode.stringLit t => some (String.mk (stripQuotes t.data))
        | _ => none) = vals := by
    rw [List.filterMap_map]
    have : ∀ v ∈ vals,
        (String.mk (stripQuotes ("'" ++ v ++ "'").data)) = v := by
      intro v hv'
      have hd : ("'" ++ v ++ "'").data = '\'' :: (v.data ++ ['\'']) := by
        rw [String.data_append, String.data_append]
        rfl
      rw [hd]
      unfold stripQuotes
      rw [List.filter_cons, if_neg (by decide), List.filter_append,
        List.filter_eq_self.mpr (by
          intro c hc
          simpa using hq v hv' c hc),
        show List.filter (fun c => decide (c ≠ '\'' ∧ c ≠ '"')) ['\''] = [] by decide,
        List.append_nil]
    calc (vals.filterMap fun v =>
            some (String.mk (stripQuotes (TsNode.stringLit ("'" ++ v ++ "'")).getText.data)))
        = vals.map fun v => String.mk (stripQuotes ("'" ++ v ++ "'").data) := by
          rw [show (fun v => some (String.mk (stripQuotes (TsNode.stringLit ("'" ++ v ++ "'")).getText.data)))
              = some ∘ (fun v => String.mk (stripQuotes ("'" ++ v ++ "'").data)) from rfl,
            List.filterMap_eq_map]
      _ = vals := by
          rw [List.map_congr_left this, List.map_id']
  unfold extractConstArrays roundTripFile
  simp only [List.foldl_cons, List.foldl_nil]
  rw [hval, if_pos hv]
  unfold recordSet
  simp

theorem c1_parsePropMember (x : String) (vals : List String) (propName : String)
    (hx1 : x.data ≠ []) (hx2 : ∀ c ∈ x.data, isWordChar c = true) :
    parsePropMember [(x, vals)]
      (TsMember.assignment propName []
        (some (TsNode.objectLit "" [
          TsMember.assignment "type" []
            (some (TsNode.otherExpr ("PropType<typeof " ++ x ++ "[number]>")))]))) =
      some { name := propName, type := "string", validValues := some vals } := by
  have hbody : getProperty [TsMember.assignment "type" []
      (some (TsNode.otherExpr ("PropType<typeof " ++ x ++ "[number]>")))] "type" =
      some (TsMember.assignment "type" []
        (some (TsNode.otherExpr ("PropType<typeof " ++ x ++ "[number]>")))) := by
    unfold getProperty
    simp [TsMember.name]
  have hnone : ∀ fld : String, fld ≠ "type" →
      getProperty [TsMember.assignment "type" []
        (some (TsNode.otherExpr ("PropType<typeof " ++ x ++ "[number]>")))] fld = none := by
    intro fld hfld
    unfold getProperty
    simp [TsMember.name, Ne.symm hfld]
  have hrt : resolveType [TsMember.assignment "type" []
      (some (TsNode.otherExpr ("PropType<typeof " ++ x ++ "[number]>")))] =
      String.mk ("typeof ".data ++ (x.data ++ "[number]".data)) := by
    unfold resolveType
    rw [hbody]
    simp only [TsMember.isPropertyAssignment, TsMember.getInitializer, TsNode.getText,
      if_true]
    rw [c1_propType_scan x hx2]
  have hval : resolveValidator [TsMember.assignment "type" []
      (some (TsNode.otherExpr ("PropType<typeof " ++ x ++ "[number]>")))] = none := by
    unfold resolveValidator
    rw [hnone "validator" (by decide)]
  have hdef : resolveDefault [TsMember.assignment "type" []
      (some (TsNode.otherExpr ("PropType<typeof " ++ x ++ "[number]>")))] = none := by
    unfold resolveDefault
    rw [hnone "default" (by decide)]
  have hreq : resolveRequired [TsMember.assignment "type" []
      (some (TsNode.otherExpr ("PropType<typeof " ++ x ++ "[number]>")))] = none := by
    unfold resolveRequired
    rw [hnone "required" (by decide)]
  have htt : typeFieldText [TsMember.assignment "type" []
      (some (TsNode.otherExpr ("PropType<typeof " ++ x ++ "[number]>")))] =
      "PropType<typeof " ++ x ++ "[number]>" := by
    unfold typeFieldText
    rw [hbody]
    rfl
  simp only [parsePropMember, hrt, hval, hdef, hreq, htt]
  rw [show ∀ pd : PropDefinition, withDescription [] pd = pd from fun pd => rfl]
  simp only [withDefault, hdef, withRequired, hreq, withValidator,
    withValidValuesFromValidator]
  unfold withValidValuesFromType
  rw [c1_typeof_scan x hx1 hx2]
  have hrg : recordGet [(x, vals)] (String.mk x.data) = some vals := by
    unfold recordGet
    simp
  have hcontains : containsStr
      (String.mk ("typeof ".data ++ (x.data ++ "[number]".data))) "typeof" = true := by
    unfold containsStr
    apply containsSub_of_prefix
    rw [show "typeof ".data = "typeof".data ++ [' '] by decide, List.append_assoc]
    exact isPrefixOf_append_self _ _
  simp only [hrg, hcontains, if_true]

/-- C1: for a definition file declaring a literal-array constant
`const x = ['…', …] as const` and a property whose `type` field text
references `typeof x` inside the `PropType<…>` generic wrapper,
`parseComponentProps` returns that property with `validValues` equal to the
constant's string values and with `type = "string"`. -/
theorem parseComponentProps_roundTrip (x : String) (vals : List String)
    (propName : String)
    (hx1 : x.data ≠ []) (hx2 : ∀ c ∈ x.data, isWordChar c = true)
    (hv : vals ≠ [])
    (hq : ∀ v ∈ vals, ∀ c ∈ v.data, c ≠ '\'' ∧ c ≠ '"') :
    parseComponentProps (roundTripFile x vals propName) =
      { props := [{ name := propName, type := "string", validValues := some vals }],
        emits := [] } := by
  have hca := c1_constArrays x vals propName hv hq
  have hprops : (roundTripFile x vals propName).decls.foldl
      (propTypesStep [(x, vals)]) [] =
      [{ name := propName, type := "string", validValues := some vals }] := by
    unfold roundTripFile
    simp only [List.foldl_cons, List.foldl_nil]
    rw [show propTypesStep [(x, vals)] []
        { name := x,
          initializer := some (TsNode.asExpr
            ("[" ++ String.intercalate ", " (vals.map fun v => "'" ++ v ++ "'") ++ "] as const")
            (TsNode.arrayLit
              ("[" ++ String.intercalate ", " (vals.map fun v => "'" ++ v ++ "'") ++ "]")
              (vals.map fun v => TsNode.stringLit ("'" ++ v ++ "'")))) } = [] by
      unfold propTypesStep
      split <;> rfl]
    unfold propTypesStep
    rw [if_pos (show endsWithStr "testPropTypes" "PropTypes" = true from by decide)]
    simp only [List.filterMap_cons, List.filterMap_nil,
      c1_parsePropMember x vals propName hx1 hx2]
    rfl
  have hemits : (roundTripFile x vals propName).decls.foldl emitTypesStep [] = [] := by
    unfold roundTripFile
    simp only [List.foldl_cons, List.foldl_nil]
    rw [show ∀ acc, emitTypesStep acc
        { name := x,
          initializer := some (TsNode.asExpr
            ("[" ++ String.intercalate ", " (vals.map fun v => "'" ++ v ++ "'") ++ "] as const")
            (TsNode.arrayLit
              ("[" ++ String.intercalate ", " (vals.map fun v => "'" ++ v ++ "'") ++ "]")
              (vals.map fun v => TsNode.stringLit ("'" ++ v ++ "'")))) } = acc from by
      intro acc
      unfold emitTypesStep
      split <;> rfl]
    unfold emitTypesStep
    rw [if_neg (show ¬(endsWithStr "testPropTypes" "EmitTypes" = true ∨
      endsWithStr "testPropTypes" "emitTypes" = true) from by decide)]
  show ComponentProps.mk
      ((roundTripFile x vals propName).decls.foldl
        (propTypesStep (extractConstArrays (roundTripFile x vals propName))) [])
      ((roundTripFile x vals propName).decls.foldl emitTypesStep []) = _
  rw [hca, hprops, hemits]

/-- C1 witness: the constant `sizes = ['a', 'b'] as const` and a `size`
property typed `PropType<typeof sizes[number]>`. -/
theorem parseComponentProps_roundTrip_witness :
    parseComponentProps (roundTripFile "sizes" ["a", "b"] "size") =
      { props := [{ name := "size", type := "string", validValues := some ["a", "b"] }],
        emits := [] } :=
  parseComponentProps_roundTrip "sizes" ["a", "b"] "size" (by decide) (by decide)
    (by decide) (by decide)

/-!
## Claim C7: the last return block wins
-/

theorem length_dropWhile_le (p : Char → Bool) :
    ∀ l : List Char, (l.dropWhile p).length ≤ l.length := by
  intro l
  induction l with
  | nil => simp
  | cons c rest ih =>
    rw [List.dropWhile_cons]
    split
    · simp only [List.length_cons]
      omega
    · simp

theorem length_le_of_isPrefixOf :
    ∀ (p s : List Char), p.isPrefixOf s = true → p.length ≤ s.length
  | [], s, _ => by simp
  | c :: cs, [], h => by cases h
  | c :: cs, d :: ds, h => by
    rw [isPrefixOf_cons₂, Bool.and_eq_true] at h
    simpa using length_le_of_isPrefixOf cs ds h.2

theorem noMatchIn_spec {α : Type} {f : List Char → Option α} {l : List Char}
    {s k : Nat} (h : noMatchIn f l s k = true) :
    ∀ i < k, f (l.drop (s + i)) = none := by
  intro i hi
  unfold noMatchIn at h
  rw [List.all_eq_true] at h
  have := h i (List.mem_range.mpr hi)
  simpa [Option.isNone_iff_eq_none] using this

theorem drop_append_add {p : List Char} (l : List Char) {n : Nat} (i : Nat)
    (h : p.length = n) : (p ++ l).drop (n + i) = l.drop i := by
  subst h
  rw [← List.drop_drop, List.drop_left]

theorem matchReturnBlockAt_consumes {s cap rest' : List Char}
    (h : matchReturnBlockAt s = some (cap, rest')) : rest'.length < s.length := by
  unfold matchReturnBlockAt at h
  split at h
  · next hpre =>
    have hs6 : 6 ≤ s.length := length_le_of_isPrefixOf _ _ hpre
    split at h
    · next ch r2 heq =>
      split at h
      · split at h
        · next hlt =>
          rw [Option.some.injEq, Prod.mk.injEq] at h
          have hr2 : rest'.length ≤ r2.length := by
            rw [← h.2]
            simp [List.length_drop]
          have hrest : r2.length < ((s.drop 6).dropWhile isJsSpace).length := by
            rw [heq]
            simp
          have hdw : ((s.drop 6).dropWhile isJsSpace).length ≤ (s.drop 6).length :=
            length_dropWhile_le _ _
          have hd6 : (s.drop 6).length = s.length - 6 := List.length_drop 6 s
          omega
        · cases h
      · cases h
    · cases h
  · cases h

theorem frbF_cons_none (ch : Char) (rest : List Char) (fuel : Nat)
    (h : matchReturnBlockAt (ch :: rest) = none) :
    findReturnBlocksF (fuel + 1) (ch :: rest) = findReturnBlocksF fuel rest := by
  show (match matchReturnBlockAt (ch :: rest) with
    | some (cap, rest') => cap :: findReturnBlocksF fuel rest'
    | none => findReturnBlocksF fuel rest) = findReturnBlocksF fuel rest
  rw [h]

theorem frbF_cons_some (ch : Char) (rest : List Char) (fuel : Nat)
    (cap rest' : List Char)
    (h : matchReturnBlockAt (ch :: rest) = some (cap, rest')) :
    findReturnBlocksF (fuel + 1) (ch :: rest) = cap :: findReturnBlocksF fuel rest' := by
  show (match matchReturnBlockAt (ch :: rest) with
    | some (cap, rest') => cap :: findReturnBlocksF fuel rest'
    | none => findReturnBlocksF fuel rest) = cap :: findReturnBlocksF fuel rest'
  rw [h]

theorem frbF_nil (fuel : Nat) : findReturnBlocksF fuel [] = [] := by
  cases fuel <;> rfl

theorem frbF_fuel : ∀ (n : Nat) (l : List Char) (f1 f2 : Nat),
    l.length < f1 → l.length < f2 → l.length ≤ n →
    findReturnBlocksF f1 l = findReturnBlocksF f2 l := by
  intro n
  induction n with
  | zero =>
    intro l f1 f2 h1 h2 hn
    have : l = [] := List.length_eq_zero.mp (Nat.le_zero.mp hn)
    subst this
    rw [frbF_nil, frbF_nil]
  | succ n ih =>
    intro l f1 f2 h1 h2 hn
    cases l with
    | nil => rw [frbF_nil, frbF_nil]
    | cons ch rest =>
      cases f1 with
      | zero => simp at h1
      | succ k1 =>
        cases f2 with
        | zero => simp at h2
        | succ k2 =>
          simp only [List.length_cons] at h1 h2 hn
          cases hm : matchReturnBlockAt (ch :: rest) with
          | some pr =>
            obtain ⟨cap, rest'⟩ := pr
            have hlt := matchReturnBlockAt_consumes hm
            simp only [List.length_cons] at hlt
            rw [frbF_cons_some ch rest k1 cap rest' hm,
              frbF_cons_some ch rest k2 cap rest' hm,
              ih rest' k1 k2 (by omega) (by omega) (by omega)]
          | none =>
            rw [frbF_cons_none ch rest k1 hm, frbF_cons_none ch rest k2 hm,
              ih rest k1 k2 (by omega) (by omega) (by omega)]

theorem frbF_skip : ∀ (xs ys : List Char) (fuel : Nat),
    (xs ++ ys).length < fuel →
    (∀ i < xs.length, matchReturnBlockAt ((xs ++ ys).drop i) = none) →
    findReturnBlocksF fuel (xs ++ ys) = findReturnBlocksF (fuel - xs.length) ys := by
  intro xs
  induction xs with
  | nil => intro ys fuel _ _; simp
  | cons ch rest ih =>
    intro ys fuel hfuel h
    cases fuel with
    | zero => simp at hfuel
    | succ k =>
      have h0 : matchReturnBlockAt (ch :: (rest ++ ys)) = none := by
        have := h 0 (by simp)
        simpa using this
      simp only [List.length_append, List.length_cons] at hfuel
      rw [List.cons_append, frbF_cons_none ch (rest ++ ys) k h0,
        ih ys k (by simp only [List.length_append]; omega)
          (fun i hi => by
            have := h (i + 1) (by simp only [List.length_cons]; omega)
            simpa using this),
        show (k + 1) - (ch :: rest).length = k - rest.length by
          simp only [List.length_cons]; omega]

theorem matchReturnBlockAt_render (m tail : List Char)
    (hm : ∀ ch ∈ m, ch ≠ Char.ofNat 125) :
    matchReturnBlockAt (renderReturnBlock m ++ tail) = some (m, tail) := by
  have hshape : renderReturnBlock m ++ tail =
      "return".data ++ (' ' :: Char.ofNat 123 :: (m ++ [Char.ofNat 125] ++ tail)) := by
    unfold renderReturnBlock
    rw [show "return ".data = "return".data ++ [' '] by decide]
    simp
  have hdw : (((renderReturnBlock m ++ tail).drop 6).dropWhile isJsSpace) =
      Char.ofNat 123 :: (m ++ [Char.ofNat 125] ++ tail) := by
    rw [hshape, drop_append_add _ 0 (by decide : ("return".data).length = 6),
      List.drop_zero, List.dropWhile_cons, if_pos (by decide),
      List.dropWhile_cons, if_neg (by decide)]
  have hcap : (m ++ [Char.ofNat 125] ++ tail).takeWhile
      (fun c' => decide (c' ≠ Char.ofNat 125)) = m := by
    rw [List.append_assoc, takeWhile_append_all (fun c hc => by simp [hm c hc])]
    rw [show ([Char.ofNat 125] ++ tail).takeWhile
        (fun c' => decide (c' ≠ Char.ofNat 125)) = [] by
      apply takeWhile_eq_nil_of_head
      simp]
    simp
  unfold matchReturnBlockAt
  rw [if_pos (by
    rw [hshape]
    exact isPrefixOf_append_self _ _)]
  rw [hdw]
  split
  · next c r2 heq =>
    injection heq with h1 h2
    subst h1
    subst h2
    rw [if_pos rfl, hcap]
    rw [if_pos (by
      simp only [List.length_append, List.length_cons, List.length_nil]
      omega)]
    rw [show m.length + 1 = (m ++ [Char.ofNat 125]).length by simp]
    rw [show m ++ [Char.ofNat 125] ++ tail = (m ++ [Char.ofNat 125]) ++ tail by simp,
      List.drop_left]
  · next heq => simp at heq

theorem matchReturnBlockAt_nil : matchReturnBlockAt [] = none := by decide

theorem frbF_match (l cap rest' : List Char) (fuel : Nat)
    (h : matchReturnBlockAt l = some (cap, rest')) :
    findReturnBlocksF (fuel + 1) l = cap :: findReturnBlocksF fuel rest' := by
  cases l with
  | nil => rw [matchReturnBlockAt_nil] at h; cases h
  | cons ch rest => exact frbF_cons_some ch rest fuel cap rest' h

theorem frbF_none_all (l : List Char) : ∀ (fuel : Nat),
    (∀ i < l.length, matchReturnBlockAt (l.drop i) = none) →
    findReturnBlocksF fuel l = [] := by
  induction l with
  | nil => intro fuel _; exact frbF_nil fuel
  | cons ch rest ih =>
    intro fuel h
    cases fuel with
    | zero => rfl
    | succ k =>
      rw [frbF_cons_none ch rest k (by simpa using h 0 (by simp))]
      exact ih k fun i hi => by
        have := h (i + 1) (by simp only [List.length_cons]; omega)
        simpa using this

theorem findReturnBlocks_twoReturnDoc (a m1 b m2 c : List Char)
    (hm1 : ∀ ch ∈ m1, ch ≠ Char.ofNat 125)
    (hm2 : ∀ ch ∈ m2, ch ≠ Char.ofNat 125)
    (ha : noMatchIn matchReturnBlockAt (twoReturnDoc a m1 b m2 c) 0 a.length = true)
    (hb : noMatchIn matchReturnBlockAt (twoReturnDoc a m1 b m2 c)
      (a.length + (renderReturnBlock m1).length) b.length = true)
    (hc : noMatchIn matchReturnBlockAt (twoReturnDoc a m1 b m2 c)
      (a.length + (renderReturnBlock m1).length + b.length +
        (renderReturnBlock m2).length) c.length = true) :
    findReturnBlocks (twoReturnDoc a m1 b m2 c) = [m1, m2] := by
  have hdoc : twoReturnDoc a m1 b m2 c =
      a ++ (renderReturnBlock m1 ++ (b ++ (renderReturnBlock m2 ++ c))) := rfl
  have hB1 : (renderReturnBlock m1).length = m1.length + 9 := by
    simp [renderReturnBlock]
  have hB2 : (renderReturnBlock m2).length = m2.length + 9 := by
    simp [renderReturnBlock]
  have hN : (twoReturnDoc a m1 b m2 c).length =
      a.length + (m1.length + 9) + b.length + (m2.length + 9) + c.length := by
    rw [hdoc]
    simp only [List.length_append]
    omega
  unfold findReturnBlocks
  rw [hN, hdoc]
  rw [frbF_skip a _ _ (by rw [← hdoc, hN]; omega)
    (fun i hi => by
      have := noMatchIn_spec ha i hi
      rw [Nat.zero_add] at this
      rw [← hdoc]
      exact this)]
  rw [show a.length + (m1.length + 9) + b.length + (m2.length + 9) + c.length + 1
      - a.length = ((m1.length + 9) + b.length + (m2.length + 9) + c.length) + 1 by
    omega]
  rw [frbF_match _ m1 _ _ (matchReturnBlockAt_render m1 _ hm1)]
  rw [frbF_skip b _ _ (by simp only [List.length_append, hB2]; omega)
    (fun i hi => by
      have := noMatchIn_spec hb i hi
      rw [hdoc, ← List.append_assoc] at this
      rw [drop_append_add _ i (by rw [List.length_append, hB1]) ] at this
      exact this)]
  rw [show m1.length + 9 + b.length + (m2.length + 9) + c.length - b.length
      = (m1.length + 9 + (m2.length + 9) + c.length - 1) + 1 by omega]
  rw [frbF_match _ m2 _ _ (matchReturnBlockAt_render m2 _ hm2)]
  rw [frbF_none_all c _ (fun i hi => by
    have := noMatchIn_spec hc i hi
    rw [hdoc, ← List.append_assoc, ← List.append_assoc, ← List.append_assoc] at this
    rw [drop_append_add _ i (by simp only [List.length_append])] at this
    exact this)]

/-- C7: for a composable file containing two top-level `return { … }`
blocks (and no other return-block match anywhere else in the text),
`parseComposable` extracts `returnedMembers` from the last block: the
result depends only on the second block's body, so the members of the
earlier block are ignored. -/
theorem parseComposable_last_return_wins (a b c m1 m2 : List Char) (fn : String)
    (hm1 : ∀ ch ∈ m1, ch ≠ Char.ofNat 125)
    (hm2 : ∀ ch ∈ m2, ch ≠ Char.ofNat 125)
    (ha : noMatchIn matchReturnBlockAt (twoReturnDoc a m1 b m2 c) 0 a.length = true)
    (hb : noMatchIn matchReturnBlockAt (twoReturnDoc a m1 b m2 c)
      (a.length + (renderReturnBlock m1).length) b.length = true)
    (hc : noMatchIn matchReturnBlockAt (twoReturnDoc a m1 b m2 c)
      (a.length + (renderReturnBlock m1).length + b.length +
        (renderReturnBlock m2).length) c.length = true) :
    (parseComposable (String.mk (twoReturnDoc a m1 b m2 c)) fn).returnedMembers =
      ((memberScan m2).map String.mk).filter
        (fun mem => ¬ keywordDenylist.contains mem) := by
  have hrm : (parseComposable (String.mk (twoReturnDoc a m1 b m2 c)) fn).returnedMembers =
      returnedMembersOf (twoReturnDoc a m1 b m2 c) := rfl
  rw [hrm]
  unfold returnedMembersOf
  rw [findReturnBlocks_twoReturnDoc a m1 b m2 c hm1 hm2 ha hb hc]
  rfl

/-- C7 witness: a file with an early-return guard block and a final return
block. -/
theorem parseComposable_last_return_wins_witness :
    (parseComposable (String.mk (twoReturnDoc "const n = 1\n".data " early ".data
        "\n doStuff()\n".data " count, value, reset ".data "\n".data))
      "use-counter.ts").returnedMembers =
      ((memberScan " count, value, reset ".data).map String.mk).filter
        (fun mem => ¬ keywordDenylist.contains mem) :=
  parseComposable_last_return_wins "const n = 1\n".data "\n doStuff()\n".data
    "\n".data " early ".data " count, value, reset ".data "use-counter.ts"
    (by decide) (by decide) (by decide) (by decide) (by decide)

theorem findNext_head {f : List Char → Option Nat} {l : List Char} {n : Nat}
    (h : f l = some n) : findNext f l = some (0, n) := by
  cases l <;> simp [findNext, h]

theorem findNext_cons_none {f : List Char → Option Nat} {ch : Char}
    {rest : List Char} (h : f (ch :: rest) = none) :
    findNext f (ch :: rest) = (findNext f rest).map fun p => (p.1 + 1, p.2) := by
  show (match f (ch :: rest) with
    | some l => some (0, l)
    | none => (findNext f rest).map fun p : Nat × Nat => (p.1 + 1, p.2)) = _
  rw [h]

theorem findNext_skip {f : List Char → Option Nat} :
    ∀ (xs ys : List Char),
    (∀ i < xs.length, f ((xs ++ ys).drop i) = none) →
    findNext f (xs ++ ys) = (findNext f ys).map fun p => (p.1 + xs.length, p.2) := by
  intro xs
  induction xs with
  | nil =>
    intro ys _
    simp only [List.nil_append, List.length_nil]
    cases findNext f ys with
    | none => rfl
    | some p => simp
  | cons ch rest ih =>
    intro ys h
    have h0 : f (ch :: (rest ++ ys)) = none := by simpa using h 0 (by simp)
    rw [List.cons_append, findNext_cons_none h0,
      ih ys (fun i hi => by
        have := h (i + 1) (by simp only [List.length_cons]; omega)
        simpa using this)]
    cases findNext f ys with
    | none => rfl
    | some p =>
      cases p
      simp [Nat.add_assoc]

theorem findNext_none_all {f : List Char → Option Nat} (hnil : f [] = none) :
    ∀ (l : List Char), (∀ i < l.length, f (l.drop i) = none) →
    findNext f l = none := by
  intro l
  induction l with
  | nil => intro _; simp [findNext, hnil]
  | cons ch rest ih =>
    intro h
    rw [findNext_cons_none (by simpa using h 0 (by simp)),
      ih (fun i hi => by
        have := h (i + 1) (by simp only [List.length_cons]; omega)
        simpa using this)]
    rfl

theorem findNext_append_none {f : List Char → Option Nat}
    (xs ys : List Char)
    (h : ∀ i < xs.length, f ((xs ++ ys).drop i) = none)
    (hys : findNext f ys = none) :
    findNext f (xs ++ ys) = none := by
  rw [findNext_skip xs ys h, hys]
  rfl

theorem openTagMatchAt_not_lt {c : Char} (l : List Char) (h : c ≠ '<') :
    openTagMatchAt (c :: l) = none := by
  unfold openTagMatchAt
  rw [if_neg]
  rw [show "<template".data = '<' :: "template".data by decide, isPrefixOf_cons₂,
    Bool.and_eq_true]
  rintro ⟨h1, -⟩
  rw [beq_iff_eq] at h1
  exact h h1.symm

theorem closeTagMatchAt_not_lt {c : Char} (l : List Char) (h : c ≠ '<') :
    closeTagMatchAt (c :: l) = none := by
  unfold closeTagMatchAt
  rw [if_neg]
  rw [show "</template".data = '<' :: "/template".data by decide, isPrefixOf_cons₂,
    Bool.and_eq_true]
  rintro ⟨h1, -⟩
  rw [beq_iff_eq] at h1
  exact h h1.symm

theorem openTagMatchAt_at_token (rest : List Char) :
    openTagMatchAt (tplOpenTok ++ rest) = some 10 := by
  unfold openTagMatchAt tplOpenTok
  rw [show "<template>".data ++ rest = "<template".data ++ ('>' :: rest) by
    rw [show "<template>".data = "<template".data ++ ['>'] by decide]
    simp]
  rw [if_pos (isPrefixOf_append_self _ _),
    drop_append_len _ (by decide : ("<template".data).length = 9)]
  simp

theorem closeTagMatchAt_at_token (rest : List Char) :
    closeTagMatchAt (tplCloseTok ++ rest) = some 11 := by
  unfold closeTagMatchAt tplCloseTok
  rw [show "</template>".data ++ rest = "</template".data ++ ('>' :: rest) by
    rw [show "</template>".data = "</template".data ++ ['>'] by decide]
    simp]
  rw [if_pos (isPrefixOf_append_self _ _),
    drop_append_len _ (by decide : ("</template".data).length = 10),
    takeWhile_eq_nil_of_head (by decide : isJsSpace '>' = false)]
  simp

theorem closeTagMatchAt_at_openTok (rest : List Char) :
    closeTagMatchAt (tplOpenTok ++ rest) = none := by
  rw [show tplOpenTok ++ rest = '<' :: ('t' :: ("emplate>".data ++ rest)) from rfl]
  unfold closeTagMatchAt
  rw [if_neg]
  rw [show "</template".data = '<' :: ('/' :: "template".data) by decide,
    isPrefixOf_cons₂, isPrefixOf_cons₂]
  simp

theorem openTagMatchAt_at_closeTok (rest : List Char) :
    openTagMatchAt (tplCloseTok ++ rest) = none := by
  rw [show tplCloseTok ++ rest = '<' :: ('/' :: ("template>".data ++ rest)) from rfl]
  unfold openTagMatchAt
  rw [if_neg]
  rw [show "<template".data = '<' :: ('t' :: "emplate".data) by decide,
    isPrefixOf_cons₂, isPrefixOf_cons₂]
  simp

theorem rootOpenMatchAt_at_token (rest : List Char) :
    rootOpenMatchAt (tplOpenTok ++ rest) = some 10 := by
  unfold rootOpenMatchAt tplOpenTok
  rw [show "<template>".data ++ rest = "<template".data ++ ('>' :: rest) by
    rw [show "<template>".data = "<template".data ++ ['>'] by decide]
    simp]
  rw [if_pos (isPrefixOf_append_self _ _),
    drop_append_len _ (by decide : ("<template".data).length = 9),
    takeWhile_eq_nil_of_head (by decide : (decide ¬('>' = '>')) = false)]
  simp [isWordChar]

theorem openTagMatchAt_nil : openTagMatchAt [] = none := by decide

theorem chunk_skip {f : List Char → Option Nat} (tok ys : List Char)
    (hf : ∀ (c : Char) (l : List Char), c ≠ '<' → f (c :: l) = none)
    (h0 : f (tok ++ ys) = none)
    (hin : ∀ i < tok.length, 0 < i → (tok.drop i).head? ≠ some '<') :
    ∀ i < tok.length, f ((tok ++ ys).drop i) = none := by
  intro i hi
  rcases Nat.eq_zero_or_pos i with h | hpos
  · subst h
    simpa using h0
  · rw [List.drop_append_of_le_length (le_of_lt hi)]
    cases hd : tok.drop i with
    | nil =>
      rw [List.drop_eq_nil_iff] at hd
      exact absurd hi (not_lt.mpr hd)
    | cons ch l' =>
      rw [List.cons_append]
      apply hf
      intro hc
      subst hc
      exact hin i hi hpos (by rw [hd]; rfl)

theorem closeTag_skip_openTok (ys : List Char) :
    ∀ i < tplOpenTok.length, closeTagMatchAt ((tplOpenTok ++ ys).drop i) = none :=
  chunk_skip tplOpenTok ys (fun _ l h => closeTagMatchAt_not_lt l h)
    (closeTagMatchAt_at_openTok ys) (by decide)

theorem openTag_skip_closeTok (ys : List Char) :
    ∀ i < tplCloseTok.length, openTagMatchAt ((tplCloseTok ++ ys).drop i) = none :=
  chunk_skip tplCloseTok ys (fun _ l h => openTagMatchAt_not_lt l h)
    (openTagMatchAt_at_closeTok ys) (by decide)

theorem tlf_open (fuel depth acc : Nat) (s : List Char) (ci cl oi ol : Nat)
    (hc : findNext closeTagMatchAt s = some (ci, cl))
    (ho : findNext openTagMatchAt s = some (oi, ol)) (hlt : oi < ci) :
    templateLoopF (fuel + 1) depth acc s =
      templateLoopF fuel (depth + 1) (acc + oi + ol) (s.drop (oi + ol)) := by
  show (match findNext closeTagMatchAt s with
    | none => none
    | some (ci, cl) =>
      match findNext openTagMatchAt s with
      | some (oi, ol) =>
        if oi < ci then templateLoopF fuel (depth + 1) (acc + oi + ol) (s.drop (oi + ol))
        else if depth = 1 then some (acc + ci)
        else templateLoopF fuel (depth - 1) (acc + ci + cl) (s.drop (ci + cl))
      | none =>
        if depth = 1 then some (acc + ci)
        else templateLoopF fuel (depth - 1) (acc + ci + cl) (s.drop (ci + cl))) = _
  rw [hc, ho]
  show (if oi < ci then templateLoopF fuel (depth + 1) (acc + oi + ol) (s.drop (oi + ol))
    else if depth = 1 then some (acc + ci)
    else templateLoopF fuel (depth - 1) (acc + ci + cl) (s.drop (ci + cl))) = _
  rw [if_pos hlt]

theorem tlf_close_done (fuel depth acc : Nat) (s : List Char) (ci cl : Nat)
    (hc : findNext closeTagMatchAt s = some (ci, cl))
    (ho : findNext openTagMatchAt s = none) (hd : depth = 1) :
    templateLoopF (fuel + 1) depth acc s = some (acc + ci) := by
  show (match findNext closeTagMatchAt s with
    | none => none
    | some (ci, cl) =>
      match findNext openTagMatchAt s with
      | some (oi, ol) =>
        if oi < ci then templateLoopF fuel (depth + 1) (acc + oi + ol) (s.drop (oi + ol))
        else if depth = 1 then some (acc + ci)
        else templateLoopF fuel (depth - 1) (acc + ci + cl) (s.drop (ci + cl))
      | none =>
        if depth = 1 then some (acc + ci)
        else templateLoopF fuel (depth - 1) (acc + ci + cl) (s.drop (ci + cl))) = _
  rw [hc, ho]
  show (if depth = 1 then some (acc + ci)
    else templateLoopF fuel (depth - 1) (acc + ci + cl) (s.drop (ci + cl))) = _
  rw [if_pos hd]

theorem tlf_close_cont (fuel depth acc : Nat) (s : List Char) (ci cl : Nat)
    (hc : findNext closeTagMatchAt s = some (ci, cl))
    (ho : findNext openTagMatchAt s = none) (hd : depth ≠ 1) :
    templateLoopF (fuel + 1) depth acc s =
      templateLoopF fuel (depth - 1) (acc + ci + cl) (s.drop (ci + cl)) := by
  show (match findNext closeTagMatchAt s with
    | none => none
    | some (ci, cl) =>
      match findNext openTagMatchAt s with
      | some (oi, ol) =>
        if oi < ci then templateLoopF fuel (depth + 1) (acc + oi + ol) (s.drop (oi + ol))
        else if depth = 1 then some (acc + ci)
        else templateLoopF fuel (depth - 1) (acc + ci + cl) (s.drop (ci + cl))
      | none =>
        if depth = 1 then some (acc + ci)
        else templateLoopF fuel (depth - 1) (acc + ci + cl) (s.drop (ci + cl))) = _
  rw [hc, ho]
  show (if depth = 1 then some (acc + ci)
    else templateLoopF fuel (depth - 1) (acc + ci + cl) (s.drop (ci + cl))) = _
  rw [if_neg hd]

theorem extractRootTemplate_eq (content : List Char) (i l : Nat)
    (h : findNext rootOpenMatchAt content = some (i, l)) :
    extractRootTemplate content =
      match templateLoopF ((content.drop (i + l)).length + 1) 1 0
          (content.drop (i + l)) with
      | none => []
      | some endPos => (content.drop (i + l)).take endPos := by
  show (match findNext rootOpenMatchAt content with
    | none => []
    | some (i, l) =>
      let body0 := content.drop (i + l)
      match templateLoopF (body0.length + 1) 1 0 body0 with
      | none => []
      | some endPos => body0.take endPos) = _
  rw [h]

/-- C6: on an input whose outermost structural-markup region contains a
nested marker pair of the same kind — leading text `a`, the root opener,
then `b1`, a nested opener, `b2`, the nested closer, `b3`, the outer
closer, and trailing text `c`, where the filler regions contain no further
marker occurrences — `extractRootTemplate` does not stop at the nested
closer: depth tracking makes it return the full outer region
`b1 ++ opener ++ b2 ++ closer ++ b3`. -/
theorem extractRootTemplate_nested (a b1 b2 b3 c : List Char)
    (ha : noMatchIn rootOpenMatchAt (nestedTemplateDoc a b1 b2 b3 c) 0 a.length = true)
    (h1o : noMatchIn openTagMatchAt (nestedTemplateBody b1 b2 b3 c) 0 b1.length = true)
    (h1c : noMatchIn closeTagMatchAt (nestedTemplateBody b1 b2 b3 c) 0 b1.length = true)
    (h2o : noMatchIn openTagMatchAt (nestedTemplateBody b1 b2 b3 c)
      (b1.length + 10) b2.length = true)
    (h2c : noMatchIn closeTagMatchAt (nestedTemplateBody b1 b2 b3 c)
      (b1.length + 10) b2.length = true)
    (h3o : noMatchIn openTagMatchAt (nestedTemplateBody b1 b2 b3 c)
      (b1.length + 10 + b2.length + 11) b3.length = true)
    (h3c : noMatchIn closeTagMatchAt (nestedTemplateBody b1 b2 b3 c)
      (b1.length + 10 + b2.length + 11) b3.length = true)
    (hco : noMatchIn openTagMatchAt (nestedTemplateBody b1 b2 b3 c)
      (b1.length + 10 + b2.length + 11 + b3.length + 11) c.length = true) :
    extractRootTemplate (nestedTemplateDoc a b1 b2 b3 c) =
      b1 ++ (tplOpenTok ++ (b2 ++ (tplCloseTok ++ b3))) := by
  have hTlen : tplOpenTok.length = 10 := by decide
  have hClen : tplCloseTok.length = 11 := by decide
  have hL : (nestedTemplateBody b1 b2 b3 c).length =
      b1.length + b2.length + b3.length + c.length + 32 := by
    simp only [nestedTemplateBody, List.length_append, hTlen, hClen]
    omega
  have hskipB1o : ∀ i < b1.length, openTagMatchAt
      ((b1 ++ (tplOpenTok ++ (b2 ++ (tplCloseTok ++ (b3 ++ (tplCloseTok ++ c)))))).drop i)
        = none := fun i hi => by
    have := noMatchIn_spec h1o i hi
    rw [Nat.zero_add] at this
    exact this
  have hskipB1c : ∀ i < b1.length, closeTagMatchAt
      ((b1 ++ (tplOpenTok ++ (b2 ++ (tplCloseTok ++ (b3 ++ (tplCloseTok ++ c)))))).drop i)
        = none := fun i hi => by
    have := noMatchIn_spec h1c i hi
    rw [Nat.zero_add] at this
    exact this
  have hskipB2o : ∀ i < b2.length, openTagMatchAt
      ((b2 ++ (tplCloseTok ++ (b3 ++ (tplCloseTok ++ c)))).drop i) = none := fun i hi => by
    have := noMatchIn_spec h2o i hi
    rw [show nestedTemplateBody b1 b2 b3 c =
        (b1 ++ tplOpenTok) ++ (b2 ++ (tplCloseTok ++ (b3 ++ (tplCloseTok ++ c))))
        from by simp [nestedTemplateBody],
      drop_append_add _ i (by simp [hTlen])] at this
    exact this
  have hskipB2c : ∀ i < b2.length, closeTagMatchAt
      ((b2 ++ (tplCloseTok ++ (b3 ++ (tplCloseTok ++ c)))).drop i) = none := fun i hi => by
    have := noMatchIn_spec h2c i hi
    rw [show nestedTemplateBody b1 b2 b3 c =
        (b1 ++ tplOpenTok) ++ (b2 ++ (tplCloseTok ++ (b3 ++ (tplCloseTok ++ c))))
        from by simp [nestedTemplateBody],
      drop_append_add _ i (by simp [hTlen])] at this
    exact this
  have hskipB3o : ∀ i < b3.length, openTagMatchAt
      ((b3 ++ (tplCloseTok ++ c)).drop i) = none := fun i hi => by
    have := noMatchIn_spec h3o i hi
    rw [show nestedTemplateBody b1 b2 b3 c =
        (((b1 ++ tplOpenTok) ++ b2) ++ tplCloseTok) ++ (b3 ++ (tplCloseTok ++ c))
        from by simp [nestedTemplateBody],
      drop_append_add _ i (by simp only [List.length_append, hTlen, hClen])] at this
    exact this
  have hskipB3c : ∀ i < b3.length, closeTagMatchAt
      ((b3 ++ (tplCloseTok ++ c)).drop i) = none := fun i hi => by
    have := noMatchIn_spec h3c i hi
    rw [show nestedTemplateBody b1 b2 b3 c =
        (((b1 ++ tplOpenTok) ++ b2) ++ tplCloseTok) ++ (b3 ++ (tplCloseTok ++ c))
        from by simp [nestedTemplateBody],
      drop_append_add _ i (by simp only [List.length_append, hTlen, hClen])] at this
    exact this
  have hskipCo : ∀ i < c.length, openTagMatchAt (c.drop i) = none := fun i hi => by
    have := noMatchIn_spec hco i hi
    rw [show nestedTemplateBody b1 b2 b3 c =
        (((((b1 ++ tplOpenTok) ++ b2) ++ tplCloseTok) ++ b3) ++ tplCloseTok) ++ c
        from by simp [nestedTemplateBody],
      drop_append_add _ i (by simp only [List.length_append, hTlen, hClen])] at this
    exact this
  have hopenTail : findNext openTagMatchAt (b3 ++ (tplCloseTok ++ c)) = none := by
    apply findNext_append_none _ _ hskipB3o
    apply findNext_append_none _ _ (openTag_skip_closeTok c)
    exact findNext_none_all openTagMatchAt_nil c hskipCo
  have e1 : findNext closeTagMatchAt (tplCloseTok ++ (b3 ++ (tplCloseTok ++ c)))
      = some (0, 11) := findNext_head (closeTagMatchAt_at_token _)
  have e2 : findNext closeTagMatchAt (b2 ++ (tplCloseTok ++ (b3 ++ (tplCloseTok ++ c))))
      = some (b2.length, 11) := by
    rw [findNext_skip _ _ hskipB2c, e1]
    simp
  have e3 : findNext closeTagMatchAt
      (tplOpenTok ++ (b2 ++ (tplCloseTok ++ (b3 ++ (tplCloseTok ++ c)))))
      = some (b2.length + 10, 11) := by
    rw [findNext_skip _ _ (closeTag_skip_openTok _), e2]
    simp [hTlen]
  have hcl1 : findNext closeTagMatchAt (nestedTemplateBody b1 b2 b3 c)
      = some (b2.length + 10 + b1.length, 11) := by
    rw [show nestedTemplateBody b1 b2 b3 c =
        b1 ++ (tplOpenTok ++ (b2 ++ (tplCloseTok ++ (b3 ++ (tplCloseTok ++ c))))) from rfl,
      findNext_skip _ _ hskipB1c, e3]
    simp
  have hop1 : findNext openTagMatchAt (nestedTemplateBody b1 b2 b3 c)
      = some (b1.length, 10) := by
    rw [show nestedTemplateBody b1 b2 b3 c =
        b1 ++ (tplOpenTok ++ (b2 ++ (tplCloseTok ++ (b3 ++ (tplCloseTok ++ c))))) from rfl,
      findNext_skip _ _ hskipB1o, findNext_head (openTagMatchAt_at_token _)]
    simp
  have hop2 : findNext openTagMatchAt (b2 ++ (tplCloseTok ++ (b3 ++ (tplCloseTok ++ c))))
      = none := by
    apply findNext_append_none _ _ hskipB2o
    apply findNext_append_none _ _ (openTag_skip_closeTok _)
    exact hopenTail
  have hcl3 : findNext closeTagMatchAt (b3 ++ (tplCloseTok ++ c))
      = some (b3.length, 11) := by
    rw [findNext_skip _ _ hskipB3c, findNext_head (closeTagMatchAt_at_token _)]
    simp
  have hfroot : findNext rootOpenMatchAt (nestedTemplateDoc a b1 b2 b3 c)
      = some (a.length, 10) := by
    rw [show nestedTemplateDoc a b1 b2 b3 c =
        a ++ (tplOpenTok ++ nestedTemplateBody b1 b2 b3 c) from rfl,
      findNext_skip _ _ (fun i hi => by
        have := noMatchIn_spec ha i hi
        rw [Nat.zero_add] at this
        exact this),
      findNext_head (rootOpenMatchAt_at_token _)]
    simp
  have hdrop0 : (nestedTemplateDoc a b1 b2 b3 c).drop (a.length + 10)
      = nestedTemplateBody b1 b2 b3 c := by
    rw [show nestedTemplateDoc a b1 b2 b3 c =
        (a ++ tplOpenTok) ++ nestedTemplateBody b1 b2 b3 c from by simp [nestedTemplateDoc],
      show a.length + 10 = (a ++ tplOpenTok).length from by simp [hTlen]]
    exact List.drop_left _ _
  have hdrop1 : (nestedTemplateBody b1 b2 b3 c).drop (b1.length + 10)
      = b2 ++ (tplCloseTok ++ (b3 ++ (tplCloseTok ++ c))) := by
    rw [show nestedTemplateBody b1 b2 b3 c =
        (b1 ++ tplOpenTok) ++ (b2 ++ (tplCloseTok ++ (b3 ++ (tplCloseTok ++ c))))
        from by simp [nestedTemplateBody],
      show b1.length + 10 = (b1 ++ tplOpenTok).length from by simp [hTlen]]
    exact List.drop_left _ _
  have hdrop2 : (b2 ++ (tplCloseTok ++ (b3 ++ (tplCloseTok ++ c)))).drop (b2.length + 11)
      = b3 ++ (tplCloseTok ++ c) := by
    rw [show b2 ++ (tplCloseTok ++ (b3 ++ (tplCloseTok ++ c))) =
        (b2 ++ tplCloseTok) ++ (b3 ++ (tplCloseTok ++ c)) from by simp,
      show b2.length + 11 = (b2 ++ tplCloseTok).length from by simp [hClen]]
    exact List.drop_left _ _
  rw [extractRootTemplate_eq _ a.length 10 hfroot, hdrop0]
  rw [tlf_open (nestedTemplateBody b1 b2 b3 c).length 1 0 _ _ _ _ _ hcl1 hop1 (by omega)]
  rw [show (1 + 1 : Nat) = 2 from rfl, hdrop1,
    show (nestedTemplateBody b1 b2 b3 c).length =
      (b1.length + b2.length + b3.length + c.length + 31) + 1 from by rw [hL]]
  rw [tlf_close_cont (b1.length + b2.length + b3.length + c.length + 31) 2
    (0 + b1.length + 10) _ _ _ e2 hop2 (by decide)]
  rw [show (2 - 1 : Nat) = 1 from rfl, hdrop2,
    show b1.length + b2.length + b3.length + c.length + 31 =
      (b1.length + b2.length + b3.length + c.length + 30) + 1 from rfl]
  rw [tlf_close_done (b1.length + b2.length + b3.length + c.length + 30) 1
    (0 + b1.length + 10 + b2.length + 11) _ _ _ hcl3 hopenTail rfl]
  show (nestedTemplateBody b1 b2 b3 c).take (0 + b1.length + 10 + b2.length + 11 + b3.length)
    = b1 ++ (tplOpenTok ++ (b2 ++ (tplCloseTok ++ b3)))
  rw [show 0 + b1.length + 10 + b2.length + 11 + b3.length =
      (b1 ++ (tplOpenTok ++ (b2 ++ (tplCloseTok ++ b3)))).length
      from by simp only [List.length_append, hTlen, hClen]; omega,
    show nestedTemplateBody b1 b2 b3 c =
      (b1 ++ (tplOpenTok ++ (b2 ++ (tplCloseTok ++ b3)))) ++ (tplCloseTok ++ c)
      from by simp [nestedTemplateBody]]
  exact List.take_left _ _

/-- C6 witness: a document with a `<div>` before a nested template pair. -/
theorem extractRootTemplate_nested_witness :
    extractRootTemplate (nestedTemplateDoc "x ".data "<div>".data "hi".data
        "<p>q</p>".data " tail".data) =
      "<div>".data ++ (tplOpenTok ++ ("hi".data ++ (tplCloseTok ++ "<p>q</p>".data))) :=
  extractRootTemplate_nested "x ".data "<div>".data "hi".data "<p>q</p>".data " tail".data
    (by decide) (by decide) (by decide) (by decide) (by decide) (by decide) (by decide)
    (by decide)

theorem slotFromTag_name (t : List Char) : (slotFromTag t).name = resolveSlotName t := by
  simp only [slotFromTag]
  split <;> rfl

theorem astSlotOfProps_name (props : List TemplateProp) :
    (astSlotOfProps props).name = resolveAstSlotName props := by
  simp only [astSlotOfProps]
  split <;> rfl

theorem dedupPair_append (seen : List String) (l1 l2 : List SlotDefinition) :
    dedupPair seen (l1 ++ l2) =
      ((dedupPair (dedupPair seen l1).1 l2).1,
        (dedupPair seen l1).2 ++ (dedupPair (dedupPair seen l1).1 l2).2) := by
  induction l1 generalizing seen with
  | nil => simp [dedupPair]
  | cons d ds ih =>
    simp only [List.cons_append, dedupPair]
    by_cases h : d.name ∈ seen
    · simp [h, ih]
    · simp [h, ih]

theorem dedupPair_names_nodup : ∀ (l : List SlotDefinition) (seen : List String),
    ((dedupPair seen l).2.map fun d => d.name).Nodup ∧
    ∀ d ∈ (dedupPair seen l).2, ¬ seen.contains d.name := by
  intro l
  induction l with
  | nil => intro seen; simp [dedupPair]
  | cons d ds ih =>
    intro seen
    cases hb : seen.contains d.name with
    | true =>
      have hb' : d.name ∈ seen := by simpa using hb
      rw [show dedupPair seen (d :: ds) = dedupPair seen ds from by
        simp [dedupPair, hb']]
      exact ih seen
    | false =>
      have hb' : d.name ∉ seen := by simpa using hb
      rw [show dedupPair seen (d :: ds) =
          ((dedupPair (d.name :: seen) ds).1, d :: (dedupPair (d.name :: seen) ds).2)
          from by simp [dedupPair, hb']]
      constructor
      · rw [List.map_cons, List.nodup_cons]
        constructor
        · intro hmem
          obtain ⟨d', hd', hname⟩ := List.mem_map.mp hmem
          have h2 := (ih (d.name :: seen)).2 d' hd'
          rw [List.contains_cons, hname] at h2
          simp at h2
        · exact (ih (d.name :: seen)).1
      · intro d' hd'
        rcases List.mem_cons.mp hd' with h1 | h1
        · subst h1
          simpa using hb
        · have h2 := (ih (d.name :: seen)).2 d' h1
          rw [List.contains_cons] at h2
          intro hc
          exact h2 (by rw [hc]; simp)

theorem scanSlotsF_dedup : ∀ (fuel : Nat) (seen : List String)
    (acc : List SlotDefinition) (s : List Char),
    scanSlotsF fuel seen acc s = acc ++ (dedupPair seen (scanAllTagsF fuel s)).2 := by
  intro fuel
  induction fuel with
  | zero => intro seen acc s; simp [scanSlotsF, scanAllTagsF, dedupPair]
  | succ k ih =>
    intro seen acc s
    cases s with
    | nil => simp [scanSlotsF, scanAllTagsF, dedupPair]
    | cons c rest =>
      by_cases hp : ("<slot".data).isPrefixOf (c :: rest) = true
      · by_cases hb : slotTagBoundaryOk ((c :: rest).drop 5) = true
        · simp only [scanSlotsF, scanAllTagsF, hp, hb, if_true, dedupPair,
            slotFromTag_name]
          by_cases hseen : resolveSlotName (findTagEnd none (rest.drop 4)).1 ∈ seen
          · simp [hseen, ih]
          · simp [hseen, ih]
        · simp only [scanSlotsF, scanAllTagsF, hp, hb, if_true, if_false]
          exact ih seen acc _
      · simp only [scanSlotsF, scanAllTagsF, hp, if_false]
        exact ih seen acc rest


mutual
theorem findSlots_dedup : ∀ (node : TemplateNode) (seen : List String)
    (results : List SlotDefinition),
    findSlots node seen results =
      ((dedupPair seen (collectSlots node)).1,
        results ++ (dedupPair seen (collectSlots node)).2)
  | .node tag props children, seen, results => by
    by_cases ht : tag = some "slot"
    · by_cases hseen : resolveAstSlotName props ∈ seen
      · rw [show findSlots (.node tag props children) seen results =
            findSlotsList children seen results from by
          simp [findSlots, ht, hseen]]
        rw [findSlotsList_dedup children]
        simp [collectSlots, ht, hseen, dedupPair, astSlotOfProps_name]
      · rw [show findSlots (.node tag props children) seen results =
            findSlotsList children (resolveAstSlotName props :: seen)
              (results ++ [astSlotOfProps props]) from by
          simp [findSlots, ht, hseen]]
        rw [findSlotsList_dedup children]
        simp [collectSlots, ht, hseen, dedupPair, astSlotOfProps_name]
    · rw [show findSlots (.node tag props children) seen results =
          findSlotsList children seen results from by
        simp [findSlots, ht]]
      rw [findSlotsList_dedup children]
      simp [collectSlots, ht]

theorem findSlotsList_dedup : ∀ (nodes : TemplateNodeList) (seen : List String)
    (results : List SlotDefinition),
    findSlotsList nodes seen results =
      ((dedupPair seen (collectSlotsList nodes)).1,
        results ++ (dedupPair seen (collectSlotsList nodes)).2)
  | .nil, seen, results => by
    simp [findSlotsList, collectSlotsList, dedupPair]
  | .cons h t, seen, results => by
    rw [show findSlotsList (.cons h t) seen results =
        findSlotsList t (findSlots h seen results).1 (findSlots h seen results).2
        from rfl]
    rw [findSlots_dedup h, findSlotsList_dedup t]
    simp [collectSlotsList, dedupPair_append]
end

/-- C4: both slot extractors deduplicate by slot name with the first
occurrence in document order winning: each equals the
first-occurrence-wins filter of its dedup-free collection, the returned
name sequences are pairwise distinct, and a template holding two unnamed
slot markers yields exactly one declaration, named `default` (shown for
the linear scan on the rendered text and for the AST walk on the
corresponding template tree). -/
theorem parseSlots_first_occurrence_wins :
    (∀ content : String,
      parseSlotsLinear content = firstWins (allSlotsLinear content) ∧
      ((parseSlotsLinear content).map fun d => d.name).Nodup) ∧
    (∀ ast : Option TemplateNode,
      parseSlotsAst ast = firstWins (ast.elim [] collectSlots) ∧
      ((parseSlotsAst ast).map fun d => d.name).Nodup) ∧
    parseSlotsLinear "<template><slot></slot><slot/></template>" =
      [{ name := "default", isScoped := false }] ∧
    parseSlotsAst (some (astOfMarkers [{ nameAttr := none, binds := [] },
        { nameAttr := none, binds := [] }])) =
      [{ name := "default", isScoped := false }] := by
  refine ⟨fun content => ?_, fun ast => ?_, by decide, by decide⟩
  · have hlin : parseSlotsLinear content = firstWins (allSlotsLinear content) := by
      unfold parseSlotsLinear allSlotsLinear firstWins
      by_cases h : extractRootTemplate content.data = []
      · simp [h, dedupPair]
      · simp only [h, if_false]
        rw [scanSlotsF_dedup]
        simp
    refine ⟨hlin, ?_⟩
    rw [hlin]
    exact (dedupPair_names_nodup _ _).1
  · cases ast with
    | none => exact ⟨rfl, by simp [parseSlotsAst]⟩
    | some node =>
      have hast : parseSlotsAst (some node) = firstWins (collectSlots node) := by
        rw [show parseSlotsAst (some node) = (findSlots node [] []).2 from rfl,
          findSlots_dedup node]
        simp [firstWins]
      refine ⟨hast, ?_⟩
      rw [hast]
      exact (dedupPair_names_nodup _ _).1

theorem takeWhile_append_run {f : Char → Bool} {w : List Char} {c : Char}
    (hw : ∀ x ∈ w, f x = true) (hc : f c = false) (l : List Char) :
    (w ++ c :: l).takeWhile f = w := by
  rw [takeWhile_append_all hw, takeWhile_eq_nil_of_head hc, List.append_nil]

theorem findTagEnd_gt (l : List Char) : findTagEnd none ('>' :: l) = ([], l) := by
  simp [findTagEnd]

theorem findTagEnd_cons_plain {c : Char} (h1 : c ≠ '"') (h2 : c ≠ '\'')
    (h3 : c ≠ '>') (l : List Char) :
    findTagEnd none (c :: l) =
      (c :: (findTagEnd none l).1, (findTagEnd none l).2) := by
  simp [findTagEnd, h1, h2, h3]

theorem findTagEnd_quote_run {q : Char} (hq : q = '"' ∨ q = '\'') :
    ∀ (w : List Char), (∀ c ∈ w, c ≠ q) → ∀ (l : List Char),
    findTagEnd none (q :: (w ++ (q :: l))) =
      (q :: (w ++ (q :: (findTagEnd none l).1)), (findTagEnd none l).2) := by
  have hstep : ∀ (w : List Char), (∀ c ∈ w, c ≠ q) → ∀ (l : List Char),
      findTagEnd (some q) (w ++ (q :: l)) =
        (w ++ (q :: (findTagEnd none l).1), (findTagEnd none l).2) := by
    intro w
    induction w with
    | nil =>
      intro _ l
      simp [findTagEnd]
    | cons c cs ih =>
      intro hw l
      have hc : c ≠ q := hw c (by simp)
      simp only [List.cons_append, findTagEnd, hc, if_false, List.append_eq,
        ih (fun x hx => hw x (by simp [hx])) l]
  intro w hw l
  simp [findTagEnd, hq, hstep w hw l]

theorem findTagEnd_word_run {w : List Char} (hw : ∀ c ∈ w, isWordChar c = true) :
    ∀ (l : List Char),
    findTagEnd none (w ++ l) =
      (w ++ (findTagEnd none l).1, (findTagEnd none l).2) := by
  induction w with
  | nil => intro l; simp
  | cons c cs ih =>
    intro l
    have hc := hw c (by simp)
    rw [List.cons_append, findTagEnd_cons_plain
      (wordChar_ne hc (by decide)) (wordChar_ne hc (by decide))
      (wordChar_ne hc (by decide)),
      ih (fun x hx => hw x (by simp [hx]))]
    simp

theorem wordStr_all {s : String} (h : wordStr s = true) :
    ∀ c ∈ s.data, isWordChar c = true := by
  unfold wordStr at h
  rw [Bool.and_eq_true] at h
  exact fun c hc => List.all_eq_true.mp h.2 c hc

theorem wordStr_ne_nil {s : String} (h : wordStr s = true) : s.data ≠ [] := by
  unfold wordStr at h
  rw [Bool.and_eq_true] at h
  simpa using h.1

theorem markerOk_binds {m : SlotMarker} (h : markerOk m = true) :
    ∀ b ∈ m.binds, wordStr b.1 = true ∧ b.1 ≠ "name" ∧ wordStr b.2 = true := by
  unfold markerOk at h
  rw [Bool.and_eq_true] at h
  intro b hb
  have hb2 := List.all_eq_true.mp h.2 b hb
  simp only [Bool.and_eq_true] at hb2
  refine ⟨hb2.1.1, ?_, hb2.2⟩
  simpa using hb2.1.2

theorem markerOk_name {m : SlotMarker} {n : String} (h : markerOk m = true)
    (hn : m.nameAttr = some n) : wordStr n = true := by
  unfold markerOk at h
  rw [Bool.and_eq_true] at h
  have h1 := h.1
  rw [hn] at h1
  exact h1

theorem findTagEnd_renderBind {b : String × String} (h1 : wordStr b.1 = true)
    (h2 : wordStr b.2 = true) (l : List Char) :
    findTagEnd none (renderBind b ++ l) =
      (renderBind b ++ (findTagEnd none l).1, (findTagEnd none l).2) := by
  rw [show renderBind b ++ l =
      ' ' :: ':' :: (b.1.data ++ ('=' :: ('"' :: (b.2.data ++ ('"' :: l)))))
      from by simp [renderBind]]
  rw [findTagEnd_cons_plain (by decide) (by decide) (by decide),
    findTagEnd_cons_plain (by decide) (by decide) (by decide),
    findTagEnd_word_run (wordStr_all h1),
    findTagEnd_cons_plain (by decide) (by decide) (by decide),
    findTagEnd_quote_run (Or.inl rfl) b.2.data
      (fun c hc => wordChar_ne (wordStr_all h2 c hc) (by decide)) l]
  simp [renderBind]

theorem findTagEnd_namePiece {n : String} (hn : wordStr n = true) (l : List Char) :
    findTagEnd none ((' ' :: ("name=\"".data ++ n.data ++ ['"'])) ++ l) =
      ((' ' :: ("name=\"".data ++ n.data ++ ['"'])) ++ (findTagEnd none l).1,
        (findTagEnd none l).2) := by
  rw [show (' ' :: ("name=\"".data ++ n.data ++ ['"'])) ++ l =
      ' ' :: 'n' :: 'a' :: 'm' :: 'e' :: '=' :: '"' :: (n.data ++ ('"' :: l))
      from by
    rw [show "name=\"".data = 'n' :: 'a' :: 'm' :: 'e' :: '=' :: ['"'] from by decide]
    simp]
  rw [findTagEnd_cons_plain (by decide) (by decide) (by decide),
    findTagEnd_cons_plain (by decide) (by decide) (by decide),
    findTagEnd_cons_plain (by decide) (by decide) (by decide),
    findTagEnd_cons_plain (by decide) (by decide) (by decide),
    findTagEnd_cons_plain (by decide) (by decide) (by decide),
    findTagEnd_cons_plain (by decide) (by decide) (by decide),
    findTagEnd_quote_run (Or.inl rfl) n.data
      (fun c hc => wordChar_ne (wordStr_all hn c hc) (by decide)) l]
  rw [show "name=\"".data = 'n' :: 'a' :: 'm' :: 'e' :: '=' :: ['"'] from by decide]
  simp

theorem findTagEnd_bindsFlatten : ∀ (bs : List (String × String)),
    (∀ b ∈ bs, wordStr b.1 = true ∧ wordStr b.2 = true) → ∀ (l : List Char),
    findTagEnd none ((bs.map renderBind).flatten ++ l) =
      ((bs.map renderBind).flatten ++ (findTagEnd none l).1,
        (findTagEnd none l).2) := by
  intro bs
  induction bs with
  | nil => intro _ l; simp
  | cons b bs' ih =>
    intro h l
    rw [show ((b :: bs').map renderBind).flatten ++ l =
        renderBind b ++ ((bs'.map renderBind).flatten ++ l) from by simp]
    rw [findTagEnd_renderBind (h b (by simp)).1 (h b (by simp)).2,
      ih (fun x hx => h x (by simp [hx])) l]
    simp

theorem findTagEnd_renderAttrs {m : SlotMarker} (hok : markerOk m = true)
    (tail : List Char) :
    findTagEnd none (renderAttrs m ++ ('>' :: tail)) = (renderAttrs m, tail) := by
  have hbinds : ∀ b ∈ m.binds, wordStr b.1 = true ∧ wordStr b.2 = true :=
    fun b hb => ⟨(markerOk_binds hok b hb).1, (markerOk_binds hok b hb).2.2⟩
  cases hna : m.nameAttr with
  | none =>
    rw [show renderAttrs m = (m.binds.map renderBind).flatten from by
      simp [renderAttrs, hna]]
    rw [findTagEnd_bindsFlatten m.binds hbinds, findTagEnd_gt]
    simp
  | some n =>
    rw [show renderAttrs m ++ ('>' :: tail) =
        (' ' :: ("name=\"".data ++ n.data ++ ['"'])) ++
          ((m.binds.map renderBind).flatten ++ ('>' :: tail)) from by
      simp [renderAttrs, hna]]
    rw [findTagEnd_namePiece (markerOk_name hok hna),
      findTagEnd_bindsFlatten m.binds hbinds, findTagEnd_gt]
    simp [renderAttrs, hna]

theorem stringMk_data (s : String) : String.mk s.data = s := by
  cases s
  rfl

theorem nameAttrMatchAt_not_n {c : Char} (h : c ≠ 'n') (l : List Char) :
    nameAttrMatchAt (c :: l) = none := by
  unfold nameAttrMatchAt
  rw [if_neg]
  rw [show "name=".data = 'n' :: "ame=".data from by decide, isPrefixOf_cons₂,
    Bool.and_eq_true]
  rintro ⟨h1, -⟩
  rw [beq_iff_eq] at h1
  exact h h1.symm

theorem dynNameMatchAt_not_colon {c : Char} (h : c ≠ ':') (l : List Char) :
    dynNameMatchAt (c :: l) = none := by
  unfold dynNameMatchAt
  rw [if_neg]
  rw [show ":name=".data = ':' :: "name=".data from by decide, isPrefixOf_cons₂,
    Bool.and_eq_true]
  rintro ⟨h1, -⟩
  rw [beq_iff_eq] at h1
  exact h h1.symm

theorem word_eq_of_prefix : ∀ (p k : List Char),
    (∀ c ∈ p, isWordChar c = true) → (∀ c ∈ k, isWordChar c = true) →
    ∀ (rest : List Char), (p ++ ['=']).isPrefixOf (k ++ ('=' :: rest)) = true →
    p = k := by
  intro p
  induction p with
  | nil =>
    intro k _ hk rest h
    cases k with
    | nil => rfl
    | cons c k' =>
      exfalso
      rw [List.nil_append, List.cons_append, isPrefixOf_cons₂, Bool.and_eq_true,
        beq_iff_eq] at h
      exact wordChar_ne (hk c (by simp)) (by decide) h.1.symm
  | cons a p' ih =>
    intro k hp hk rest h
    cases k with
    | nil =>
      exfalso
      rw [List.cons_append, List.nil_append, isPrefixOf_cons₂, Bool.and_eq_true,
        beq_iff_eq] at h
      exact wordChar_ne (hp a (by simp)) (by decide) h.1
    | cons c k' =>
      rw [List.cons_append, List.cons_append, isPrefixOf_cons₂, Bool.and_eq_true,
        beq_iff_eq] at h
      rw [h.1, ih k' (fun x hx => hp x (by simp [hx])) (fun x hx => hk x (by simp [hx]))
        rest h.2]

theorem dynNameMatchAt_bind_piece {k : String} (hk : wordStr k = true)
    (hkn : k ≠ "name") (X : List Char) :
    dynNameMatchAt (':' :: (k.data ++ ('=' :: X))) = none := by
  unfold dynNameMatchAt
  rw [if_neg]
  rw [show ":name=".data = ':' :: ("name".data ++ ['=']) from by decide,
    isPrefixOf_cons₂, Bool.and_eq_true]
  rintro ⟨-, h2⟩
  have heq := word_eq_of_prefix "name".data k.data (by decide) (wordStr_all hk) X h2
  have := congrArg String.mk heq.symm
  rw [stringMk_data] at this
  exact hkn this

theorem scanAfterWs_nil {α : Type} (f : List Char → Option α) :
    scanAfterWs f [] = none := rfl

theorem scanAfterWs_cons_nonspace {α : Type} {f : List Char → Option α} {c : Char}
    (h : isJsSpace c = false) (l : List Char) :
    scanAfterWs f (c :: l) = scanAfterWs f l := by
  simp [scanAfterWs, h]

theorem scanAfterWs_cons_space_none {α : Type} {f : List Char → Option α} {c : Char}
    (hsp : isJsSpace c = true) {l : List Char} (hf : f l = none) :
    scanAfterWs f (c :: l) = scanAfterWs f l := by
  simp [scanAfterWs, hsp, hf, Option.orElse]

theorem scanAfterWs_cons_space_some {α : Type} {f : List Char → Option α} {c : Char}
    (hsp : isJsSpace c = true) {l : List Char} {a : α} (hf : f l = some a) :
    scanAfterWs f (c :: l) = some a := by
  simp [scanAfterWs, hsp, hf, Option.orElse]

theorem scanAfterWs_nonspace_run {α : Type} {f : List Char → Option α} :
    ∀ {w : List Char}, (∀ c ∈ w, isJsSpace c = false) → ∀ (l : List Char),
    scanAfterWs f (w ++ l) = scanAfterWs f l := by
  intro w
  induction w with
  | nil => intro _ l; rfl
  | cons c cs ih =>
    intro hw l
    rw [List.cons_append, scanAfterWs_cons_nonspace (hw c (by simp)),
      ih (fun x hx => hw x (by simp [hx]))]

theorem nameAttrMatchAt_at_name {n : String} (hn : wordStr n = true) (X : List Char) :
    nameAttrMatchAt ("name=".data ++ ('"' :: (n.data ++ ('"' :: X)))) = some n.data := by
  have hcap : ((n.data ++ ('"' :: X)).takeWhile fun c => c ≠ '"' ∧ c ≠ '\'') = n.data :=
    takeWhile_append_run
      (fun c hc => by
        rw [decide_eq_true_eq]
        exact ⟨wordChar_ne (wordStr_all hn c hc) (by decide),
          wordChar_ne (wordStr_all hn c hc) (by decide)⟩)
      (by decide) X
  unfold nameAttrMatchAt
  rw [if_pos (isPrefixOf_append_self _ _),
    drop_append_len _ (by decide : ("name=".data).length = 5)]
  show (if ('"' = '"' ∨ '"' = '\'') then
      if ((n.data ++ ('"' :: X)).takeWhile fun c => c ≠ '"' ∧ c ≠ '\'') ≠ [] ∧
          ((n.data ++ ('"' :: X)).takeWhile fun c => c ≠ '"' ∧ c ≠ '\'').length <
            (n.data ++ ('"' :: X)).length then
        some ((n.data ++ ('"' :: X)).takeWhile fun c => c ≠ '"' ∧ c ≠ '\'')
      else none
    else none) = some n.data
  rw [if_pos (Or.inl rfl), hcap,
    if_pos ⟨wordStr_ne_nil hn, by simp only [List.length_append, List.length_cons]; omega⟩]

theorem nameAttr_head_binds (bs : List (String × String)) :
    nameAttrMatchAt ((bs.map renderBind).flatten) = none := by
  cases bs with
  | nil => decide
  | cons b bs' =>
    rw [show ((b :: bs').map renderBind).flatten =
        ' ' :: ((':' :: (b.1.data ++ '=' :: '"' :: (b.2.data ++ ['"']))) ++
          (bs'.map renderBind).flatten) from by simp [renderBind]]
    exact nameAttrMatchAt_not_n (by decide) _

theorem dynName_head_binds (bs : List (String × String)) :
    dynNameMatchAt ((bs.map renderBind).flatten) = none := by
  cases bs with
  | nil => decide
  | cons b bs' =>
    rw [show ((b :: bs').map renderBind).flatten =
        ' ' :: ((':' :: (b.1.data ++ '=' :: '"' :: (b.2.data ++ ['"']))) ++
          (bs'.map renderBind).flatten) from by simp [renderBind]]
    exact dynNameMatchAt_not_colon (by decide) _

theorem scanAfterWs_binds_nameAttr : ∀ (bs : List (String × String)),
    (∀ b ∈ bs, wordStr b.1 = true ∧ b.1 ≠ "name" ∧ wordStr b.2 = true) →
    scanAfterWs nameAttrMatchAt ((bs.map renderBind).flatten) = none := by
  intro bs
  induction bs with
  | nil => intro _; rfl
  | cons b bs' ih =>
    intro h
    have hb := h b (by simp)
    rw [show ((b :: bs').map renderBind).flatten =
        ' ' :: (':' :: (b.1.data ++ ('=' :: ('"' :: (b.2.data ++
          ('"' :: (bs'.map renderBind).flatten)))))) from by simp [renderBind]]
    rw [scanAfterWs_cons_space_none (by decide)
      (nameAttrMatchAt_not_n (by decide) _)]
    rw [scanAfterWs_cons_nonspace (by decide)]
    rw [scanAfterWs_nonspace_run
      (fun c hc => wordChar_not_space (wordStr_all hb.1 c hc))]
    rw [scanAfterWs_cons_nonspace (by decide), scanAfterWs_cons_nonspace (by decide)]
    rw [scanAfterWs_nonspace_run
      (fun c hc => wordChar_not_space (wordStr_all hb.2.2 c hc))]
    rw [scanAfterWs_cons_nonspace (by decide)]
    exact ih fun x hx => h x (by simp [hx])

theorem scanAfterWs_binds_dynName : ∀ (bs : List (String × String)),
    (∀ b ∈ bs, wordStr b.1 = true ∧ b.1 ≠ "name" ∧ wordStr b.2 = true) →
    scanAfterWs dynNameMatchAt ((bs.map renderBind).flatten) = none := by
  intro bs
  induction bs with
  | nil => intro _; rfl
  | cons b bs' ih =>
    intro h
    have hb := h b (by simp)
    rw [show ((b :: bs').map renderBind).flatten =
        ' ' :: (':' :: (b.1.data ++ ('=' :: ('"' :: (b.2.data ++
          ('"' :: (bs'.map renderBind).flatten)))))) from by simp [renderBind]]
    rw [scanAfterWs_cons_space_none (by decide)
      (dynNameMatchAt_bind_piece hb.1 hb.2.1 _)]
    rw [scanAfterWs_cons_nonspace (by decide)]
    rw [scanAfterWs_nonspace_run
      (fun c hc => wordChar_not_space (wordStr_all hb.1 c hc))]
    rw [scanAfterWs_cons_nonspace (by decide), scanAfterWs_cons_nonspace (by decide)]
    rw [scanAfterWs_nonspace_run
      (fun c hc => wordChar_not_space (wordStr_all hb.2.2 c hc))]
    rw [scanAfterWs_cons_nonspace (by decide)]
    exact ih fun x hx => h x (by simp [hx])

theorem resolveSlotName_renderAttrs {m : SlotMarker} (hok : markerOk m = true) :
    resolveSlotName (renderAttrs m) =
      (match m.nameAttr with | some n => n | none => "default") := by
  have hbinds := markerOk_binds hok
  cases hna : m.nameAttr with
  | some n =>
    have hn := markerOk_name hok hna
    have hfound : scanBoundary nameAttrMatchAt (renderAttrs m) = some n.data := by
      rw [show renderAttrs m =
          ' ' :: ("name=".data ++ ('"' :: (n.data ++
            ('"' :: (m.binds.map renderBind).flatten)))) from by
        simp only [renderAttrs, hna]
        simp]
      unfold scanBoundary
      rw [nameAttrMatchAt_not_n (by decide) _,
        scanAfterWs_cons_space_some (by decide) (nameAttrMatchAt_at_name hn _)]
      rfl
    unfold resolveSlotName
    rw [hfound]
  | none =>
    have hattrs : renderAttrs m = (m.binds.map renderBind).flatten := by
      simp [renderAttrs, hna]
    have h1 : scanBoundary nameAttrMatchAt (renderAttrs m) = none := by
      unfold scanBoundary
      rw [hattrs, nameAttr_head_binds, scanAfterWs_binds_nameAttr m.binds hbinds]
      rfl
    have h2 : scanBoundary dynNameMatchAt (renderAttrs m) = none := by
      unfold scanBoundary
      rw [hattrs, dynName_head_binds, scanAfterWs_binds_dynName m.binds hbinds]
      rfl
    unfold resolveSlotName
    rw [h1, h2]

theorem sbF_nil : ∀ (F : Nat) (atB : Bool), scanBindsF F atB [] = [] := by
  intro F atB
  cases F <;> rfl

theorem sbF_step_false (F : Nat) (c : Char) (X : List Char) :
    scanBindsF (F + 1) false (c :: X) = scanBindsF F (isJsSpace c) X := by
  simp [scanBindsF]

theorem sbF_step_nomatch {c : Char} {X : List Char}
    (h : bindMatchAt (c :: X) = none) (F : Nat) (atB : Bool) :
    scanBindsF (F + 1) atB (c :: X) = scanBindsF F (isJsSpace c) X := by
  cases atB with
  | false => exact sbF_step_false F c X
  | true => simp [scanBindsF, h]

theorem sbF_step_match {c : Char} {X w rest' : List Char}
    (h : bindMatchAt (c :: X) = some (w, rest')) (F : Nat) :
    scanBindsF (F + 1) true (c :: X) = String.mk w :: scanBindsF F false rest' := by
  simp [scanBindsF, h]

theorem bindMatchAt_not_colon_not_v {c : Char} (h1 : c ≠ ':') (h2 : c ≠ 'v')
    (l : List Char) : bindMatchAt (c :: l) = none := by
  unfold bindMatchAt
  split
  · next heq =>
    injection heq with hc _
    exact absurd hc h1
  · rw [if_neg]
    rw [show "v-bind:".data = 'v' :: "-bind:".data from by decide, isPrefixOf_cons₂,
      Bool.and_eq_true]
    rintro ⟨hv, -⟩
    rw [beq_iff_eq] at hv
    exact h2 hv.symm

theorem bindMatchAt_colon {k : String} (hk : wordStr k = true) (X : List Char) :
    bindMatchAt (':' :: (k.data ++ ('=' :: X))) = some (k.data, '=' :: X) := by
  have hw : ((k.data ++ ('=' :: X)).takeWhile isWordChar) = k.data :=
    takeWhile_append_run (wordStr_all hk) (by decide) X
  show (let w := (k.data ++ ('=' :: X)).takeWhile isWordChar
    if w ≠ [] then some (w, (k.data ++ ('=' :: X)).drop w.length) else none) =
    some (k.data, '=' :: X)
  simp only [hw]
  rw [if_pos (wordStr_ne_nil hk), List.drop_left]

theorem sbF_word_skip : ∀ (w : List Char), (∀ c ∈ w, isWordChar c = true) →
    ∀ (F : Nat) (l : List Char),
    scanBindsF (w.length + F) false (w ++ l) = scanBindsF F false l := by
  intro w
  induction w with
  | nil => intro _ F l; simp
  | cons c w' ih =>
    intro hw F l
    rw [show (c :: w').length + F = (w'.length + F) + 1 from by
      simp only [List.length_cons]; omega]
    rw [List.cons_append, sbF_step_false,
      wordChar_not_space (hw c (by simp)),
      ih (fun x hx => hw x (by simp [hx]))]

theorem sbF_piece (b : String × String) (h1 : wordStr b.1 = true)
    (h2 : wordStr b.2 = true) :
    ∀ (F : Nat) (atB0 : Bool) (l : List Char),
    scanBindsF ((5 + b.2.data.length) + F) atB0 (renderBind b ++ l) =
      String.mk b.1.data :: scanBindsF F false l := by
  intro F atB0 l
  rw [show renderBind b ++ l =
      ' ' :: (':' :: (b.1.data ++ ('=' :: ('"' :: (b.2.data ++ ('"' :: l))))))
      from by simp [renderBind]]
  rw [show (5 + b.2.data.length) + F = ((4 + b.2.data.length) + F) + 1 from by omega]
  rw [sbF_step_nomatch (bindMatchAt_not_colon_not_v (by decide) (by decide) _) _ atB0]
  rw [show isJsSpace ' ' = true from by decide]
  rw [show (4 + b.2.data.length) + F = ((3 + b.2.data.length) + F) + 1 from by omega]
  rw [sbF_step_match (bindMatchAt_colon h1 ('"' :: (b.2.data ++ ('"' :: l))))]
  rw [show (3 + b.2.data.length) + F = ((2 + b.2.data.length) + F) + 1 from by omega]
  rw [sbF_step_false]
  rw [show isJsSpace '=' = false from by decide]
  rw [show (2 + b.2.data.length) + F = (b.2.data.length + (F + 1)) + 1 from by omega]
  rw [sbF_step_false]
  rw [show isJsSpace '"' = false from by decide]
  rw [sbF_word_skip b.2.data (wordStr_all h2) (F + 1) ('"' :: l)]
  rw [sbF_step_false]
  rw [show isJsSpace '"' = false from by decide]

theorem sbF_flatten : ∀ (bs : List (String × String)),
    (∀ b ∈ bs, wordStr b.1 = true ∧ wordStr b.2 = true) →
    ∀ (F : Nat) (atB0 : Bool),
    scanBindsF (((bs.map renderBind).flatten).length + F) atB0
        ((bs.map renderBind).flatten) =
      bs.map fun b => String.mk b.1.data := by
  intro bs
  induction bs with
  | nil => intro _ F atB0; simpa using sbF_nil F atB0
  | cons b bs' ih =>
    intro h F atB0
    rw [show ((b :: bs').map renderBind).flatten =
        renderBind b ++ (bs'.map renderBind).flatten from by simp]
    rw [show (renderBind b ++ (bs'.map renderBind).flatten).length + F =
        (5 + b.2.data.length) +
          ((b.1.data.length + ((bs'.map renderBind).flatten).length) + F) from by
      simp only [List.length_append, renderBind, List.length_cons, List.length_nil]
      omega]
    rw [sbF_piece b (h b (by simp)).1 (h b (by simp)).2]
    rw [show (b.1.data.length + ((bs'.map renderBind).flatten).length) + F =
        ((bs'.map renderBind).flatten).length + (b.1.data.length + F) from by omega]
    rw [ih (fun x hx => h x (by simp [hx])) (b.1.data.length + F) false]
    simp

theorem scanBinds_renderAttrs {m : SlotMarker} (hok : markerOk m = true) :
    scanBinds (renderAttrs m) = m.binds.map fun b => b.1 := by
  have hbinds : ∀ b ∈ m.binds, wordStr b.1 = true ∧ wordStr b.2 = true :=
    fun b hb => ⟨(markerOk_binds hok b hb).1, (markerOk_binds hok b hb).2.2⟩
  have hnames : (m.binds.map fun b => String.mk b.1.data) = m.binds.map fun b => b.1 :=
    List.map_congr_left fun b _ => stringMk_data b.1
  unfold scanBinds
  cases hna : m.nameAttr with
  | none =>
    rw [show renderAttrs m = (m.binds.map renderBind).flatten from by
      simp [renderAttrs, hna]]
    rw [sbF_flatten m.binds hbinds 1 true, hnames]
  | some n =>
    have hn := markerOk_name hok hna
    rw [show renderAttrs m =
        ' ' :: ('n' :: ('a' :: ('m' :: ('e' :: ('=' :: ('"' :: (n.data ++
          ('"' :: (m.binds.map renderBind).flatten)))))))) from by
      simp only [renderAttrs, hna]
      simp]
    rw [show (' ' :: ('n' :: ('a' :: ('m' :: ('e' :: ('=' :: ('"' :: (n.data ++
        ('"' :: (m.binds.map renderBind).flatten))))))))).length + 1 =
        ((((((((n.data.length + (((m.binds.map renderBind).flatten).length + 1))
          + 1) + 1) + 1) + 1) + 1) + 1) + 1) + 1 from by
      simp only [List.length_cons, List.length_append]]
    rw [sbF_step_nomatch (bindMatchAt_not_colon_not_v (by decide) (by decide) _)]
    rw [show isJsSpace ' ' = true from by decide]
    rw [sbF_step_nomatch (bindMatchAt_not_colon_not_v (by decide) (by decide) _)]
    rw [show isJsSpace 'n' = false from by decide]
    rw [sbF_step_false]
    rw [show isJsSpace 'a' = false from by decide]
    rw [sbF_step_false]
    rw [show isJsSpace 'm' = false from by decide]
    rw [sbF_step_false]
    rw [show isJsSpace 'e' = false from by decide]
    rw [sbF_step_false]
    rw [show isJsSpace '=' = false from by decide]
    rw [sbF_step_false]
    rw [show isJsSpace '"' = false from by decide]
    rw [show n.data.length + (((m.binds.map renderBind).flatten).length + 1) + 1 =
        n.data.length + ((((m.binds.map renderBind).flatten).length + 1) + 1)
        from by omega]
    rw [sbF_word_skip n.data (wordStr_all hn)]
    rw [sbF_step_false]
    rw [show isJsSpace '"' = false from by decide]
    rw [sbF_flatten m.binds hbinds 1 false, hnames]

theorem wordStr_ne_empty {s : String} (h : wordStr s = true) : s ≠ "" := by
  intro he
  subst he
  exact wordStr_ne_nil h rfl

theorem resolveAstSlotName_astProps {m : SlotMarker} (hok : markerOk m = true) :
    resolveAstSlotName (astProps m) =
      (match m.nameAttr with | some n => n | none => "default") := by
  have hbinds := markerOk_binds hok
  have hdyn : (m.binds.map fun b =>
      ({ type := 7, name := "bind", arg := some b.1, exp := some b.2 } :
        TemplateProp)).find? (fun p =>
      p.type = 7 ∧ p.name = "bind" ∧ p.arg = some "name") = none := by
    rw [List.find?_eq_none]
    intro x hx
    obtain ⟨b, hb, rfl⟩ := List.mem_map.mp hx
    simp only [decide_eq_true_eq]
    rintro ⟨-, -, harg⟩
    rw [Option.some.injEq] at harg
    exact (hbinds b hb).2.1 harg
  cases hna : m.nameAttr with
  | some n =>
    rw [show astProps m =
        ({ type := 6, name := "name", value := some n } : TemplateProp) ::
          (m.binds.map fun b =>
            ({ type := 7, name := "bind", arg := some b.1, exp := some b.2 } :
              TemplateProp)) from by simp [astProps, hna]]
    unfold resolveAstSlotName
    rw [List.find?_cons_of_pos _ (by simp)]
  | none =>
    have hstat : (m.binds.map fun b =>
        ({ type := 7, name := "bind", arg := some b.1, exp := some b.2 } :
          TemplateProp)).find? (fun p => p.type = 6 ∧ p.name = "name") = none := by
      rw [List.find?_eq_none]
      intro x hx
      obtain ⟨b, hb, rfl⟩ := List.mem_map.mp hx
      simp
    rw [show astProps m = (m.binds.map fun b =>
        ({ type := 7, name := "bind", arg := some b.1, exp := some b.2 } :
          TemplateProp)) from by simp [astProps, hna]]
    unfold resolveAstSlotName
    rw [hstat, hdyn]

theorem scope_lists_eq : ∀ (bs : List (String × String)),
    (∀ b ∈ bs, wordStr b.1 = true ∧ b.1 ≠ "name" ∧ wordStr b.2 = true) →
    ((bs.map fun b =>
        ({ type := 7, name := "bind", arg := some b.1, exp := some b.2 } :
          TemplateProp)).filter isScopeBind).filterMap (fun p => p.arg) =
      (bs.map fun b => b.1).filter fun p => p ≠ "name" ∧ p ≠ "class" := by
  intro bs
  induction bs with
  | nil => intro _; rfl
  | cons b bs' ih =>
    intro h
    have hb := h b (by simp)
    have hrest := ih fun x hx => h x (by simp [hx])
    by_cases hc : b.1 = "class"
    · rw [show ((b :: bs').map fun b =>
          ({ type := 7, name := "bind", arg := some b.1, exp := some b.2 } :
            TemplateProp)) =
          ({ type := 7, name := "bind", arg := some b.1, exp := some b.2 } :
            TemplateProp) :: (bs'.map fun b =>
          ({ type := 7, name := "bind", arg := some b.1, exp := some b.2 } :
            TemplateProp)) from by simp]
      rw [List.filter_cons_of_neg (by simp [isScopeBind, hc]), hrest]
      rw [show (b :: bs').map (fun b => b.1) = b.1 :: bs'.map fun b => b.1 from by simp]
      rw [List.filter_cons_of_neg (by simp [hc])]
    · rw [show ((b :: bs').map fun b =>
          ({ type := 7, name := "bind", arg := some b.1, exp := some b.2 } :
            TemplateProp)) =
          ({ type := 7, name := "bind", arg := some b.1, exp := some b.2 } :
            TemplateProp) :: (bs'.map fun b =>
          ({ type := 7, name := "bind", arg := some b.1, exp := some b.2 } :
            TemplateProp)) from by simp]
      rw [List.filter_cons_of_pos (by
        simp [isScopeBind]
        exact ⟨wordStr_ne_empty hb.1, hb.2.1, hc⟩)]
      rw [show (b :: bs').map (fun b => b.1) = b.1 :: bs'.map fun b => b.1 from by simp]
      rw [List.filter_cons_of_pos (by simp [hb.2.1, hc])]
      rw [show (({ type := 7, name := "bind", arg := some b.1, exp := some b.2 } :
          TemplateProp) :: ((bs'.map fun b =>
            ({ type := 7, name := "bind", arg := some b.1, exp := some b.2 } :
              TemplateProp)).filter isScopeBind)).filterMap (fun p => p.arg) =
          b.1 :: ((bs'.map fun b =>
            ({ type := 7, name := "bind", arg := some b.1, exp := some b.2 } :
              TemplateProp)).filter isScopeBind).filterMap (fun p => p.arg)
        from by simp]
      rw [hrest]

theorem astScope_eq {m : SlotMarker} (hok : markerOk m = true) :
    ((astProps m).filter isScopeBind).filterMap (fun p => p.arg) =
      (m.binds.map fun b => b.1).filter fun p => p ≠ "name" ∧ p ≠ "class" := by
  have hbinds := markerOk_binds hok
  cases hna : m.nameAttr with
  | none =>
    rw [show astProps m = (m.binds.map fun b =>
        ({ type := 7, name := "bind", arg := some b.1, exp := some b.2 } :
          TemplateProp)) from by simp [astProps, hna]]
    exact scope_lists_eq m.binds hbinds
  | some n =>
    rw [show astProps m =
        ({ type := 6, name := "name", value := some n } : TemplateProp) ::
          (m.binds.map fun b =>
            ({ type := 7, name := "bind", arg := some b.1, exp := some b.2 } :
              TemplateProp)) from by simp [astProps, hna]]
    rw [List.filter_cons_of_neg (by simp [isScopeBind])]
    exact scope_lists_eq m.binds hbinds

theorem slot_record_eq {m : SlotMarker} (hok : markerOk m = true) :
    slotFromTag (renderAttrs m) = astSlotOfProps (astProps m) := by
  unfold slotFromTag astSlotOfProps
  rw [resolveSlotName_renderAttrs hok, resolveAstSlotName_astProps hok,
    scanBinds_renderAttrs hok, astScope_eq hok]

theorem openTagMatchAt_not_t {c2 : Char} (h : c2 ≠ 't') (l : List Char) :
    openTagMatchAt ('<' :: c2 :: l) = none := by
  unfold openTagMatchAt
  rw [if_neg]
  rw [show "<template".data = '<' :: 't' :: "emplate".data from by decide,
    isPrefixOf_cons₂, isPrefixOf_cons₂, Bool.and_eq_true, Bool.and_eq_true]
  rintro ⟨-, h2, -⟩
  rw [beq_iff_eq] at h2
  exact h h2.symm

theorem closeTagMatchAt_not_slash {c2 : Char} (h : c2 ≠ '/') (l : List Char) :
    closeTagMatchAt ('<' :: c2 :: l) = none := by
  unfold closeTagMatchAt
  rw [if_neg]
  rw [show "</template".data = '<' :: '/' :: "template".data from by decide,
    isPrefixOf_cons₂, isPrefixOf_cons₂, Bool.and_eq_true, Bool.and_eq_true]
  rintro ⟨-, h2, -⟩
  rw [beq_iff_eq] at h2
  exact h h2.symm

theorem closeTagMatchAt_slash_not_t {c3 : Char} (h : c3 ≠ 't') (l : List Char) :
    closeTagMatchAt ('<' :: '/' :: c3 :: l) = none := by
  unfold closeTagMatchAt
  rw [if_neg]
  rw [show "</template".data = '<' :: '/' :: 't' :: "emplate".data from by decide,
    isPrefixOf_cons₂, isPrefixOf_cons₂, isPrefixOf_cons₂, Bool.and_eq_true,
    Bool.and_eq_true, Bool.and_eq_true]
  rintro ⟨-, -, h3, -⟩
  rw [beq_iff_eq] at h3
  exact h h3.symm

theorem ps_nil : ∀ (ys : List Char), ys = [] ∨ ys.head? = some '<' →
    ∀ i < ([] : List Char).length,
    openTagMatchAt (([] ++ ys).drop i) = none ∧
      closeTagMatchAt (([] ++ ys).drop i) = none := by
  intro ys _ i hi
  simp at hi

theorem ps_cons_not_lt {c : Char} (hc : c ≠ '<') {xs : List Char}
    (hP : ∀ (ys : List Char), ys = [] ∨ ys.head? = some '<' →
      ∀ i < xs.length, openTagMatchAt ((xs ++ ys).drop i) = none ∧
        closeTagMatchAt ((xs ++ ys).drop i) = none) :
    ∀ (ys : List Char), ys = [] ∨ ys.head? = some '<' →
    ∀ i < (c :: xs).length,
    openTagMatchAt (((c :: xs) ++ ys).drop i) = none ∧
      closeTagMatchAt (((c :: xs) ++ ys).drop i) = none := by
  intro ys hys i hi
  cases i with
  | zero =>
    exact ⟨openTagMatchAt_not_lt _ hc, closeTagMatchAt_not_lt _ hc⟩
  | succ j =>
    rw [List.cons_append, List.drop_succ_cons]
    exact hP ys hys j (by simp only [List.length_cons] at hi; omega)

theorem ps_lt {c2 : Char} (h1 : c2 ≠ 't') (h2 : c2 ≠ '/') {xs : List Char}
    (hP : ∀ (ys : List Char), ys = [] ∨ ys.head? = some '<' →
      ∀ i < (c2 :: xs).length, openTagMatchAt (((c2 :: xs) ++ ys).drop i) = none ∧
        closeTagMatchAt (((c2 :: xs) ++ ys).drop i) = none) :
    ∀ (ys : List Char), ys = [] ∨ ys.head? = some '<' →
    ∀ i < ('<' :: c2 :: xs).length,
    openTagMatchAt ((('<' :: c2 :: xs) ++ ys).drop i) = none ∧
      closeTagMatchAt ((('<' :: c2 :: xs) ++ ys).drop i) = none := by
  intro ys hys i hi
  cases i with
  | zero =>
    rw [List.cons_append, List.cons_append, List.drop_zero]
    exact ⟨openTagMatchAt_not_t h1 _, closeTagMatchAt_not_slash h2 _⟩
  | succ j =>
    rw [List.cons_append, List.drop_succ_cons]
    exact hP ys hys j (by simp only [List.length_cons] at hi ⊢; omega)

theorem ps_lt_slash {c3 : Char} (h : c3 ≠ 't') {xs : List Char}
    (hP : ∀ (ys : List Char), ys = [] ∨ ys.head? = some '<' →
      ∀ i < ('/' :: c3 :: xs).length,
      openTagMatchAt ((('/' :: c3 :: xs) ++ ys).drop i) = none ∧
        closeTagMatchAt ((('/' :: c3 :: xs) ++ ys).drop i) = none) :
    ∀ (ys : List Char), ys = [] ∨ ys.head? = some '<' →
    ∀ i < ('<' :: '/' :: c3 :: xs).length,
    openTagMatchAt ((('<' :: '/' :: c3 :: xs) ++ ys).drop i) = none ∧
      closeTagMatchAt ((('<' :: '/' :: c3 :: xs) ++ ys).drop i) = none := by
  intro ys hys i hi
  cases i with
  | zero =>
    rw [List.cons_append, List.cons_append, List.cons_append, List.drop_zero]
    exact ⟨openTagMatchAt_not_t (by decide) _, closeTagMatchAt_slash_not_t h _⟩
  | succ j =>
    rw [List.cons_append, List.drop_succ_cons]
    exact hP ys hys j (by simp only [List.length_cons] at hi ⊢; omega)

theorem ps_append {xs ys : List Char}
    (hx : ∀ (zs : List Char), zs = [] ∨ zs.head? = some '<' →
      ∀ i < xs.length, openTagMatchAt ((xs ++ zs).drop i) = none ∧
        closeTagMatchAt ((xs ++ zs).drop i) = none)
    (hy : ∀ (zs : List Char), zs = [] ∨ zs.head? = some '<' →
      ∀ i < ys.length, openTagMatchAt ((ys ++ zs).drop i) = none ∧
        closeTagMatchAt ((ys ++ zs).drop i) = none)
    (hhead : ys = [] ∨ ys.head? = some '<') :
    ∀ (zs : List Char), zs = [] ∨ zs.head? = some '<' →
    ∀ i < (xs ++ ys).length,
    openTagMatchAt (((xs ++ ys) ++ zs).drop i) = none ∧
      closeTagMatchAt (((xs ++ ys) ++ zs).drop i) = none := by
  intro zs hzs i hi
  rw [List.append_assoc]
  by_cases hlt : i < xs.length
  · refine hx (ys ++ zs) ?_ i hlt
    rcases hhead with rfl | hh
    · simpa using hzs
    · right
      cases ys with
      | nil => simp at hh
      | cons y t => simpa using hh
  · rw [List.length_append] at hi
    rw [show i = xs.length + (i - xs.length) from by omega,
      drop_append_add _ (i - xs.length) rfl]
    exact hy zs hzs (i - xs.length) (by omega)

theorem pw_all_not_lt : ∀ (xs : List Char), (∀ c ∈ xs, c ≠ '<') →
    ∀ {tail : List Char},
    (∀ (ys : List Char), ys = [] ∨ ys.head? = some '<' →
      ∀ i < tail.length, openTagMatchAt ((tail ++ ys).drop i) = none ∧
        closeTagMatchAt ((tail ++ ys).drop i) = none) →
    ∀ (ys : List Char), ys = [] ∨ ys.head? = some '<' →
    ∀ i < (xs ++ tail).length,
    openTagMatchAt (((xs ++ tail) ++ ys).drop i) = none ∧
      closeTagMatchAt (((xs ++ tail) ++ ys).drop i) = none := by
  intro xs
  induction xs with
  | nil =>
    intro _ tail ht ys hys i hi
    simp only [List.nil_append] at hi ⊢
    exact ht ys hys i hi
  | cons c cs ih =>
    intro h tail ht ys hys i hi
    have step := ps_cons_not_lt (h c (by simp))
      (ih (fun x hx => h x (by simp [hx])) ht) ys hys
    simp only [List.cons_append] at step hi ⊢
    exact step i hi

theorem renderAttrs_no_lt {m : SlotMarker} (hok : markerOk m = true) :
    ∀ c ∈ renderAttrs m, c ≠ '<' := by
  have hbinds := markerOk_binds hok
  have hbind : ∀ b ∈ m.binds, ∀ c ∈ renderBind b, c ≠ '<' := by
    intro b hb c hc
    simp only [renderBind, List.mem_cons, List.mem_append, List.mem_singleton] at hc
    rcases hc with rfl | rfl | hk | rfl | rfl | hv | hx
    · decide
    · decide
    · exact wordChar_ne (wordStr_all (hbinds b hb).1 c hk) (by decide)
    · decide
    · decide
    · exact wordChar_ne (wordStr_all (hbinds b hb).2.2 c hv) (by decide)
    · rcases hx with rfl | hx
      · decide
      · simp at hx
  intro c hc
  simp only [renderAttrs, List.mem_append] at hc
  rcases hc with hname | hflat
  · cases hna : m.nameAttr with
    | none => rw [hna] at hname; simp at hname
    | some n =>
      rw [hna] at hname
      intro he
      subst he
      simp at hname
      exact absurd (wordStr_all (markerOk_name hok hna) '<' hname) (by decide)
  · obtain ⟨piece, hpiece, hcp⟩ := List.mem_flatten.mp hflat
    obtain ⟨b, hb, rfl⟩ := List.mem_map.mp hpiece
    exact hbind b hb c hcp

theorem p_renderSlotTag {m : SlotMarker} (hok : markerOk m = true) :
    ∀ (ys : List Char), ys = [] ∨ ys.head? = some '<' →
    ∀ i < (renderSlotTag m).length,
    openTagMatchAt ((renderSlotTag m ++ ys).drop i) = none ∧
      closeTagMatchAt ((renderSlotTag m ++ ys).drop i) = none := by
  have h9 : ∀ (ys : List Char), ys = [] ∨ ys.head? = some '<' →
      ∀ i < ([] : List Char).length, openTagMatchAt (([] ++ ys).drop i) = none ∧
        closeTagMatchAt (([] ++ ys).drop i) = none := ps_nil
  have h8 := ps_cons_not_lt (by decide : '>' ≠ '<') h9
  have h7 := ps_cons_not_lt (by decide : 't' ≠ '<') h8
  have h6 := ps_cons_not_lt (by decide : 'o' ≠ '<') h7
  have h5 := ps_cons_not_lt (by decide : 'l' ≠ '<') h6
  have h4 := ps_cons_not_lt (by decide : 's' ≠ '<') h5
  have h4' := ps_cons_not_lt (by decide : '/' ≠ '<') h4
  have hend := ps_lt_slash (by decide : 's' ≠ 't') h4'
  have hgt := ps_cons_not_lt (by decide : '>' ≠ '<') hend
  have hattrs := pw_all_not_lt (renderAttrs m) (renderAttrs_no_lt hok) hgt
  have ht := ps_cons_not_lt (by decide : 't' ≠ '<') hattrs
  have ho := ps_cons_not_lt (by decide : 'o' ≠ '<') ht
  have hl := ps_cons_not_lt (by decide : 'l' ≠ '<') ho
  have hs := ps_cons_not_lt (by decide : 's' ≠ '<') hl
  have hfull := ps_lt (by decide : 's' ≠ 't') (by decide : 's' ≠ '/') hs
  intro ys hys i hi
  have hshape : renderSlotTag m ++ ys =
      ('<' :: 's' :: ('l' :: ('o' :: ('t' :: (renderAttrs m ++
        ('>' :: ('<' :: ('/' :: ('s' :: ('l' :: ('o' :: ('t' :: ('>' ::
          ([] : List Char)))))))))))))) ++ ys := by
    simp [renderSlotTag]
  have hlen : (renderSlotTag m).length =
      ('<' :: 's' :: ('l' :: ('o' :: ('t' :: (renderAttrs m ++
        ('>' :: ('<' :: ('/' :: ('s' :: ('l' :: ('o' :: ('t' :: ('>' ::
          ([] : List Char)))))))))))))).length := by
    simp [renderSlotTag]
  rw [hshape]
  exact hfull ys hys i (by rw [← hlen]; exact hi)

theorem flatten_tags_head (ms : List SlotMarker) :
    (ms.map renderSlotTag).flatten = [] ∨
      ((ms.map renderSlotTag).flatten).head? = some '<' := by
  cases ms with
  | nil => left; rfl
  | cons m ms' =>
    right
    rw [show ((m :: ms').map renderSlotTag).flatten =
        '<' :: ('s' :: ('l' :: ('o' :: ('t' :: (renderAttrs m ++
          ('>' :: ('<' :: ('/' :: ('s' :: ('l' :: ('o' :: ('t' :: ('>' ::
            ((ms'.map renderSlotTag).flatten)))))))))))))) from by
      simp [renderSlotTag]]
    rfl

theorem p_flatten_tags : ∀ (ms : List SlotMarker), (∀ m ∈ ms, markerOk m = true) →
    ∀ (ys : List Char), ys = [] ∨ ys.head? = some '<' →
    ∀ i < ((ms.map renderSlotTag).flatten).length,
    openTagMatchAt (((ms.map renderSlotTag).flatten ++ ys).drop i) = none ∧
      closeTagMatchAt (((ms.map renderSlotTag).flatten ++ ys).drop i) = none := by
  intro ms
  induction ms with
  | nil =>
    intro _ ys hys i hi
    simp at hi
  | cons m ms' ih =>
    intro h ys hys i hi
    have happ := ps_append (p_renderSlotTag (h m (by simp)))
      (ih fun x hx => h x (by simp [hx])) (flatten_tags_head ms') ys hys
    rw [show ((m :: ms').map renderSlotTag).flatten =
        renderSlotTag m ++ (ms'.map renderSlotTag).flatten from by simp] at hi ⊢
    exact happ i hi

theorem closeTagMatchAt_closeTok : closeTagMatchAt tplCloseTok = some 11 := by
  have := closeTagMatchAt_at_token []
  rwa [List.append_nil] at this

theorem findNext_open_closeTok : findNext openTagMatchAt tplCloseTok = none := by
  have : findNext openTagMatchAt (tplCloseTok ++ []) = none :=
    findNext_append_none tplCloseTok [] (openTag_skip_closeTok [])
      (findNext_none_all openTagMatchAt_nil [] (by simp))
  rwa [List.append_nil] at this

theorem extractRootTemplate_renderDoc (ms : List SlotMarker)
    (hok : ∀ m ∈ ms, markerOk m = true) :
    extractRootTemplate (renderDoc ms) = (ms.map renderSlotTag).flatten := by
  have hdoc : renderDoc ms =
      tplOpenTok ++ ((ms.map renderSlotTag).flatten ++ tplCloseTok) := by
    simp [renderDoc, tplOpenTok, tplCloseTok]
  have hfroot : findNext rootOpenMatchAt (renderDoc ms) = some (0, 10) := by
    rw [hdoc]
    exact findNext_head (rootOpenMatchAt_at_token _)
  rw [extractRootTemplate_eq _ 0 10 hfroot]
  have hdrop : (renderDoc ms).drop (0 + 10) =
      (ms.map renderSlotTag).flatten ++ tplCloseTok := by
    rw [hdoc, show (0 + 10 : Nat) = 10 from rfl,
      drop_append_len _ (by decide : tplOpenTok.length = 10)]
  rw [hdrop]
  have hcl : findNext closeTagMatchAt ((ms.map renderSlotTag).flatten ++ tplCloseTok)
      = some (((ms.map renderSlotTag).flatten).length, 11) := by
    rw [findNext_skip _ _ (fun i hi =>
        (p_flatten_tags ms hok tplCloseTok (Or.inr rfl) i hi).2),
      findNext_head closeTagMatchAt_closeTok]
    simp
  have hop : findNext openTagMatchAt ((ms.map renderSlotTag).flatten ++ tplCloseTok)
      = none :=
    findNext_append_none _ _ (fun i hi =>
        (p_flatten_tags ms hok tplCloseTok (Or.inr rfl) i hi).1)
      findNext_open_closeTok
  rw [tlf_close_done ((ms.map renderSlotTag).flatten ++ tplCloseTok).length 1 0
    _ _ _ hcl hop rfl]
  show ((ms.map renderSlotTag).flatten ++ tplCloseTok).take
      (0 + ((ms.map renderSlotTag).flatten).length) = (ms.map renderSlotTag).flatten
  rw [Nat.zero_add]
  exact List.take_left _ _

theorem satF_nil : ∀ (fuel : Nat), scanAllTagsF fuel [] = [] := by
  intro fuel
  cases fuel <;> rfl

theorem slot_prefix_false_head {c : Char} (h : c ≠ '<') (l : List Char) :
    ("<slot".data).isPrefixOf (c :: l) = false := by
  rw [show "<slot".data = '<' :: "slot".data from by decide, isPrefixOf_cons₂]
  have : ('<' == c) = false := by
    rw [beq_eq_false_iff_ne]
    exact fun he => h he.symm
  rw [this]
  rfl

theorem slot_prefix_false_close (l : List Char) :
    ("<slot".data).isPrefixOf ('<' :: '/' :: l) = false := by
  rw [show "<slot".data = '<' :: 's' :: "lot".data from by decide,
    isPrefixOf_cons₂, isPrefixOf_cons₂]
  rfl

theorem satF_cons_nonslot {c : Char} {rest : List Char}
    (h : ("<slot".data).isPrefixOf (c :: rest) = false) (fuel : Nat) :
    scanAllTagsF (fuel + 1) (c :: rest) = scanAllTagsF fuel rest := by
  simp [scanAllTagsF, h]

theorem satF_slot_step (fuel : Nat) (X : List Char)
    (hb : slotTagBoundaryOk X = true) :
    scanAllTagsF (fuel + 1) ('<' :: ('s' :: ('l' :: ('o' :: ('t' :: X))))) =
      slotFromTag (findTagEnd none X).1 ::
        scanAllTagsF fuel (findTagEnd none X).2 := by
  have hpre : ("<slot".data).isPrefixOf
      ('<' :: ('s' :: ('l' :: ('o' :: ('t' :: X))))) = true := by
    rw [show '<' :: ('s' :: ('l' :: ('o' :: ('t' :: X)))) = "<slot".data ++ X
      from by
        rw [show "<slot".data = ['<', 's', 'l', 'o', 't'] from by decide]
        rfl]
    exact isPrefixOf_append_self _ _
  simp [scanAllTagsF, hpre, hb]

theorem renderAttrs_head (m : SlotMarker) :
    renderAttrs m = [] ∨ ∃ t, renderAttrs m = ' ' :: t := by
  cases hna : m.nameAttr with
  | some n =>
    right
    exact ⟨("name=\"".data ++ n.data ++ ['"']) ++ (m.binds.map renderBind).flatten,
      by simp [renderAttrs, hna]⟩
  | none =>
    cases hb : m.binds with
    | nil => left; simp [renderAttrs, hna, hb]
    | cons b bs' =>
      right
      refine ⟨(':' :: (b.1.data ++ '=' :: '"' :: (b.2.data ++ ['"']))) ++
        (bs'.map renderBind).flatten, ?_⟩
      simp [renderAttrs, hna, hb, renderBind]

theorem satF_marker {m : SlotMarker} (hok : markerOk m = true)
    (rest : List Char) (fuel : Nat) :
    scanAllTagsF (fuel + 1) (renderSlotTag m ++ rest) =
      slotFromTag (renderAttrs m) ::
        scanAllTagsF fuel ("</slot>".data ++ rest) := by
  have hte := findTagEnd_renderAttrs hok ("</slot>".data ++ rest)
  have hshape : renderSlotTag m ++ rest =
      '<' :: ('s' :: ('l' :: ('o' :: ('t' :: (renderAttrs m ++
        ('>' :: ("</slot>".data ++ rest))))))) := by
    simp [renderSlotTag]
  have hb : slotTagBoundaryOk (renderAttrs m ++ ('>' :: ("</slot>".data ++ rest)))
      = true := by
    rcases renderAttrs_head m with he | ⟨t, ht⟩
    · rw [he]
      rfl
    · rw [ht]
      rfl
  rw [hshape, satF_slot_step fuel _ hb, hte]

theorem satF_skip_closeSlot (rest : List Char) (fuel : Nat) :
    scanAllTagsF (fuel + 7) ("</slot>".data ++ rest) = scanAllTagsF fuel rest := by
  rw [show "</slot>".data ++ rest =
      '<' :: ('/' :: ('s' :: ('l' :: ('o' :: ('t' :: ('>' :: rest)))))) from by
    rw [show "</slot>".data = ['<', '/', 's', 'l', 'o', 't', '>'] from by decide]
    rfl]
  rw [show fuel + 7 = (fuel + 6) + 1 from by omega,
    satF_cons_nonslot (slot_prefix_false_close _)]
  rw [show fuel + 6 = (fuel + 5) + 1 from by omega,
    satF_cons_nonslot (slot_prefix_false_head (by decide) _)]
  rw [show fuel + 5 = (fuel + 4) + 1 from by omega,
    satF_cons_nonslot (slot_prefix_false_head (by decide) _)]
  rw [show fuel + 4 = (fuel + 3) + 1 from by omega,
    satF_cons_nonslot (slot_prefix_false_head (by decide) _)]
  rw [show fuel + 3 = (fuel + 2) + 1 from by omega,
    satF_cons_nonslot (slot_prefix_false_head (by decide) _)]
  rw [show fuel + 2 = (fuel + 1) + 1 from by omega,
    satF_cons_nonslot (slot_prefix_false_head (by decide) _)]
  rw [satF_cons_nonslot (slot_prefix_false_head (by decide) _)]

theorem renderSlotTag_length (m : SlotMarker) :
    (renderSlotTag m).length = 13 + (renderAttrs m).length := by
  simp only [renderSlotTag, List.length_append, List.length_cons, List.length_nil]
  omega

theorem satF_flatten : ∀ (ms : List SlotMarker), (∀ m ∈ ms, markerOk m = true) →
    ∀ (fuel : Nat), ((ms.map renderSlotTag).flatten).length < fuel →
    scanAllTagsF fuel ((ms.map renderSlotTag).flatten) =
      ms.map fun m => slotFromTag (renderAttrs m) := by
  intro ms
  induction ms with
  | nil => intro _ fuel _; exact satF_nil fuel
  | cons m ms' ih =>
    intro h fuel hfuel
    have hlen : ((m :: ms').map renderSlotTag).flatten.length =
        (13 + (renderAttrs m).length) + ((ms'.map renderSlotTag).flatten).length := by
      rw [show ((m :: ms').map renderSlotTag).flatten =
          renderSlotTag m ++ (ms'.map renderSlotTag).flatten from by simp,
        List.length_append, renderSlotTag_length]
    rw [show ((m :: ms').map renderSlotTag).flatten =
        renderSlotTag m ++ (ms'.map renderSlotTag).flatten from by simp]
    rw [show fuel = (fuel - 1) + 1 from by omega]
    rw [satF_marker (h m (by simp)) _ (fuel - 1)]
    rw [show fuel - 1 = (fuel - 8) + 7 from by rw [hlen] at hfuel; omega]
    rw [satF_skip_closeSlot]
    rw [ih (fun x hx => h x (by simp [hx])) (fuel - 8)
      (by rw [hlen] at hfuel; omega)]
    simp

theorem collectSlotsList_markers : ∀ (l : List SlotMarker),
    collectSlotsList (toNodeList (l.map fun m =>
      .node (some "slot") (astProps m) .nil)) =
      l.map fun m => astSlotOfProps (astProps m) := by
  intro l
  induction l with
  | nil => rfl
  | cons m l' ih =>
    simp only [List.map_cons, toNodeList, collectSlotsList, collectSlots, ih]
    simp

theorem collectSlots_astOfMarkers (ms : List SlotMarker) :
    collectSlots (astOfMarkers ms) = ms.map fun m => astSlotOfProps (astProps m) := by
  unfold astOfMarkers
  rw [show collectSlots (.node (some "template") []
      (toNodeList (ms.map fun m => .node (some "slot") (astProps m) .nil))) =
      (if (some "template" : Option String) = some "slot"
        then [astSlotOfProps []] else []) ++
        collectSlotsList (toNodeList (ms.map fun m =>
          .node (some "slot") (astProps m) .nil)) from rfl]
  rw [if_neg (by simp), collectSlotsList_markers]
  simp

/-- C5 counterexample: on a descriptor whose slot declares its dynamic name
with the longhand `v-bind:name` directive, the linear text scan (which only
recognizes the shorthand `:name=`) reports the slot as `default`, while the
AST walk over the structural parse of the same descriptor reports the
dynamic name. -/
theorem parseSlots_vbind_divergence :
    parseSlotsLinear "<template><slot v-bind:name=\"expr\"></slot></template>" ≠
      parseSlotsAst (some (.node (some "template") []
        (.cons (.node (some "slot")
          [{ type := 7, name := "bind", arg := some "name", exp := some "expr" }]
          .nil) .nil))) := by
  decide

/-- C5 (amended): on the generative family of well-formed descriptors —
slot markers with an optional static word-character `name` attribute and
shorthand-colon scope bindings whose keys and values are word-character
identifiers with no key equal to the reserved dynamic-name key — the
AST-based slot extractor and the linear text-scanning extractor return
identical slot sequences: the same names, scoped flags and scope props in
the same order. -/
theorem parseSlots_linear_ast_agree (ms : List SlotMarker)
    (hok : ms.all markerOk = true) :
    parseSlotsLinear (String.mk (renderDoc ms)) =
      parseSlotsAst (some (astOfMarkers ms)) := by
  have hok' : ∀ m ∈ ms, markerOk m = true := List.all_eq_true.mp hok
  have hB := extractRootTemplate_renderDoc ms hok'
  have hAst : parseSlotsAst (some (astOfMarkers ms)) =
      firstWins (ms.map fun m => astSlotOfProps (astProps m)) := by
    rw [show parseSlotsAst (some (astOfMarkers ms)) =
        (findSlots (astOfMarkers ms) [] []).2 from rfl,
      findSlots_dedup, collectSlots_astOfMarkers]
    simp [firstWins]
  have hlin : parseSlotsLinear (String.mk (renderDoc ms)) =
      (if (ms.map renderSlotTag).flatten = [] then []
       else scanSlotsF (((ms.map renderSlotTag).flatten).length + 1) [] []
         ((ms.map renderSlotTag).flatten)) := by
    unfold parseSlotsLinear
    rw [show (String.mk (renderDoc ms)).data = renderDoc ms from rfl, hB]
  rw [hlin, hAst]
  by_cases hnil : (ms.map renderSlotTag).flatten = []
  · rw [if_pos hnil]
    cases ms with
    | nil => rfl
    | cons m ms' =>
      exfalso
      have hl0 := congrArg List.length hnil
      rw [show ((m :: ms').map renderSlotTag).flatten =
          renderSlotTag m ++ (ms'.map renderSlotTag).flatten from by simp,
        List.length_append, renderSlotTag_length] at hl0
      simp at hl0
  · rw [if_neg hnil, scanSlotsF_dedup,
      satF_flatten ms hok' (((ms.map renderSlotTag).flatten).length + 1) (by omega),
      show (ms.map fun m => slotFromTag (renderAttrs m)) =
        ms.map fun m => astSlotOfProps (astProps m)
        from List.map_congr_left fun m hm => slot_record_eq (hok' m hm)]
    simp [firstWins]

/-- C5 amended-claim witness: a two-marker descriptor, one named marker
with a scope binding and one unnamed marker. -/
theorem parseSlots_linear_ast_agree_witness :
    ([{ nameAttr := some "header", binds := [("item", "x")] },
      { nameAttr := none, binds := [] }] : List SlotMarker).all markerOk = true ∧
    parseSlotsLinear (String.mk (renderDoc
        [{ nameAttr := some "header", binds := [("item", "x")] },
         { nameAttr := none, binds := [] }])) =
      parseSlotsAst (some (astOfMarkers
        [{ nameAttr := some "header", binds := [("item", "x")] },
         { nameAttr := none, binds := [] }])) :=
  ⟨by decide, parseSlots_linear_ast_agree
    [{ nameAttr := some "header", binds := [("item", "x")] },
     { nameAttr := none, binds := [] }] (by decide)⟩
